import Mathlib

/-!
# Verification of the cipher-gate folder/file storage core

Shallow embedding of the folder-tree and file-lifecycle core of the
repository (mongoose models `folder.model.js` / `file.model.js` and the
controllers `folder.controller.js`, `folder.controller.part2.js`,
`file.controller.js`), together with theorems settling the frozen claims
about it.

Modelling conventions:
* Mongo documents become Lean structures; a database state is a `Store`
  holding lists of documents.  `findById` becomes `List.find?` on the id
  field; `updateOne` updates the first matching document.
* `doc.save()` is modelled as persisting the in-memory document into the
  store after running the schema's `pre('save')` hook, which is embedded
  faithfully (including its bugs, see `folderSaveExisting` and
  `fileSaveHook`).
* External collaborators (S3 object storage, the AI risk-assessment
  service) are modelled by an outcome parameter (`StorageOutcome`,
  `RiskOutcome`): the controller code only branches on success/thrown
  error and on the returned verdict fields.
* Timestamps (`sharedAt`, `updatedAt`, …) carry no information used by
  any claim and are omitted from the document structures.
* Unbounded JS loops/recursions over the folder tree receive a fuel
  argument; call sites pass a fuel that dominates any parent chain or
  subtree of the store (`s.folders.length + 1`), so on the acyclic
  stores the claims quantify over the fuel never runs out.
-/

namespace CipherGate

/-- Document ids (Mongo `ObjectId`s); only equality is ever used. -/
abbrev Id := Nat

/-! ## Permissions (`file.model.js` PERMISSIONS, reused by the folder model) -/

/-- The three sharing permission levels, `FILE_PERMISSIONS` in
`file.model.js` (`{VIEW:'view', EDIT:'edit', MANAGE:'manage'}`). -/
inductive Permission where
  | view
  | edit
  | manage
deriving DecidableEq, Repr

/-- `Object.values(FILE_PERMISSIONS)`: the insertion order of the object
literal is `view, edit, manage`. -/
def permissionLevels : List Permission := [.view, .edit, .manage]

/-- A `sharedWith` entry (grantee, level, granter); timestamps/message
omitted (never read by the modelled code). -/
structure Grant where
  user : Id
  permission : Permission
  sharedBy : Id
deriving DecidableEq, Repr

/-- The shared body of `folderSchema.methods.hasPermission` and
`fileSchema.methods.hasPermission`: owner always passes; otherwise the
first `sharedWith` entry for the user is compared by index in
`Object.values(FILE_PERMISSIONS)`. -/
def hasPermissionOn (owner : Id) (sharedWith : List Grant) (userId : Id)
    (required : Permission) : Bool :=
  if owner == userId then
    true
  else
    match sharedWith.find? (fun share => share.user == userId) with
    | none => false
    | some sharedAccess =>
        permissionLevels.indexOf sharedAccess.permission ≥
          permissionLevels.indexOf required

/-- The ordinal of a permission level under the fixed ordering
`view(0) < edit(1) < manage(2)` used by the specification. -/
def permOrdinal : Permission → Nat
  | .view => 0
  | .edit => 1
  | .manage => 2

theorem indexOf_permissionLevels (p : Permission) :
    permissionLevels.indexOf p = permOrdinal p := by
  cases p <;> rfl

/-! ## Data model -/

/-- A folder document (`folder.model.js`).  Fields never read by the
modelled operations (description, metadata, timestamps, fileCount,
totalSize, isArchive, isDefault) are omitted. -/
structure FolderDoc where
  fid : Id
  name : String
  parent : Option Id
  path : String
  owner : Id
  sharedWith : List Grant
  isTrash : Bool
  folderCount : Int
deriving DecidableEq, Repr

/-- File lifecycle status, `STATUS` in `file.model.js`. -/
inductive FileStatus where
  | uploading
  | processing
  | active
  | quarantined
  | deleted
deriving DecidableEq, Repr

/-- Risk level reported by the AI risk-scoring collaborator. -/
inductive RiskLevel where
  | low
  | medium
  | high
deriving DecidableEq, Repr

/-- The risk-assessment verdict stored on a file by `uploadFile`. -/
structure RiskAssessment where
  riskScore : Nat
  riskLevel : RiskLevel
  isMalicious : Bool
  requiresReview : Bool
deriving DecidableEq, Repr

/-- A version-history entry (`versionHistorySchema`); timestamp omitted. -/
structure VersionEntry where
  version : Nat
  storageKey : String
  size : Nat
  mimeType : String
  uploadedBy : Id
deriving DecidableEq, Repr

/-- A file document (`file.model.js`).  `storageKey` is an `Option`
because `uploadFile` first saves the record before the storage
collaborator has produced a locator. -/
structure FileDoc where
  fid : Id
  name : String
  owner : Id
  folder : Option Id
  size : Nat
  mimeType : String
  status : FileStatus
  storageKey : Option String
  storageUrl : Option String
  sharedWith : List Grant
  currentVersion : Nat
  versions : List VersionEntry
  riskAssessment : Option RiskAssessment
  downloads : List Id
deriving DecidableEq, Repr

/-- A user document; only the storage-quota fields are read by the
modelled code. -/
structure UserDoc where
  uid : Id
  storageUsed : Nat
  storageQuota : Nat
deriving DecidableEq, Repr

/-- The database state. -/
structure Store where
  folders : List FolderDoc
  files : List FileDoc
  users : List UserDoc
deriving DecidableEq, Repr

/-- JS `String.prototype.trim` white space (the code only ever trims
names, which contain ordinary spaces at most). -/
def isTrimmable (c : Char) : Bool :=
  c == ' ' || c == '\t' || c == '\n' || c == '\r'

/-- Executable rendering of JS `name.trim()` (defined over the char
list so that concrete runs reduce in the kernel). -/
def trimString (str : String) : String :=
  .mk (((str.toList.dropWhile isTrimmable).reverse.dropWhile isTrimmable).reverse)

/-- `Folder.findById`. -/
def findFolder (s : Store) (i : Id) : Option FolderDoc :=
  s.folders.find? (fun f => f.fid == i)

/-- `File.findById` / `File.findOne({_id})`. -/
def findFile (s : Store) (i : Id) : Option FileDoc :=
  s.files.find? (fun f => f.fid == i)

/-- `User.findById`. -/
def findUser (s : Store) (i : Id) : Option UserDoc :=
  s.users.find? (fun u => u.uid == i)

/-- `Folder.updateOne({_id: i}, …)`: applies `g` to the first document
with id `i` (ids are unique in the stores the claims quantify over). -/
def updateOneFolder : List FolderDoc → Id → (FolderDoc → FolderDoc) → List FolderDoc
  | [], _, _ => []
  | f :: rest, i, g =>
      if f.fid == i then g f :: rest else f :: updateOneFolder rest i g

/-- Same for files. -/
def updateOneFile : List FileDoc → Id → (FileDoc → FileDoc) → List FileDoc
  | [], _, _ => []
  | f :: rest, i, g =>
      if f.fid == i then g f :: rest else f :: updateOneFile rest i g

/-- Same for users. -/
def updateOneUser : List UserDoc → Id → (UserDoc → UserDoc) → List UserDoc
  | [], _, _ => []
  | u :: rest, i, g =>
      if u.uid == i then g u :: rest else u :: updateOneUser rest i g

/-- `Folder.updateOne({_id: i}, {$inc: {folderCount: d}})`. -/
def incFolderCount (s : Store) (i : Id) (d : Int) : Store :=
  let folders' :=
    updateOneFolder s.folders i (fun f => { f with folderCount := f.folderCount + d })
  { s with folders := folders' }

/-- `folderHasPermission f u p` is `f.hasPermission(u, p)` from
`folder.model.js`. -/
def folderHasPermission (f : FolderDoc) (userId : Id) (required : Permission) : Bool :=
  hasPermissionOn f.owner f.sharedWith userId required

/-- `fileHasPermission f u p` is `f.hasPermission(u, p)` from
`file.model.js` (same body as the folder method). -/
def fileHasPermission (f : FileDoc) (userId : Id) (required : Permission) : Bool :=
  hasPermissionOn f.owner f.sharedWith userId required

/-! ## Folder model save semantics (`folder.model.js`)

The folder schema has a `pre('save')` hook.  For a *new* document it
overwrites the path with the parent's `fullPath` virtual and increments
the parent's `folderCount`.  For an *existing* document whose `parent`
field was modified it recomputes the path and then calls the
module-level helper `updateDescendantPaths` (folder.model.js:209).  That
helper reads `this.constructor`, but it is invoked as a plain function
(`updateDescendantPaths(this._id, this.path)`), so inside it `this` is
not the model (in sloppy-mode CommonJS it is the global object, whose
`constructor` is `Object`, and `Object.find` is undefined): the call
throws a `TypeError` before touching the database, the hook's promise
rejects, and `save()` fails.  We model that save as an `Except` error
and the failed document write as leaving the store unchanged. -/

/-- The `fullPath` virtual: `/${name}` when the folder has no parent
(note: no trailing slash), `${path}${name}/` otherwise. -/
def fullPath (f : FolderDoc) : String :=
  if f.parent == none then "/" ++ f.name else f.path ++ f.name ++ "/"

/-- Persisting a document write: replaces the stored document with the
in-memory one. -/
def saveFolderDoc (l : List FolderDoc) (doc : FolderDoc) : List FolderDoc :=
  updateOneFolder l doc.fid (fun _ => doc)

/-- Saving a *new* folder document: the `pre('save')` `isNew` branch
sets `this.path = parentFolder.fullPath` (overwriting whatever the
controller computed) and `$inc`s the parent's `folderCount`, then the
document is inserted. -/
def folderSaveNew (s : Store) (doc : FolderDoc) : Store :=
  let doc' :=
    match doc.parent with
    | some p =>
        match findFolder s p with
        | some parentFolder => { doc with path := fullPath parentFolder }
        | none => doc
    | none => doc
  let s' :=
    match doc.parent with
    | some p => incFolderCount s p 1
    | none => s
  { s' with folders := s'.folders ++ [doc'] }

/-- Why a save with a modified `parent` fails (see the section header). -/
inductive JsError where
  | updateDescendantPathsTypeError
deriving DecidableEq, Repr

/-- Saving an *existing* folder document.  When `parent` was not
modified the hook only refreshes timestamps and the write persists.
When `parent` was modified the hook's call to the unbound
`updateDescendantPaths` helper throws, so the save rejects and nothing
is written. -/
def folderSaveExisting (s : Store) (doc : FolderDoc) (parentModified : Bool) :
    Except JsError Store :=
  if parentModified then
    .error .updateDescendantPathsTypeError
  else
    .ok { s with folders := saveFolderDoc s.folders doc }

/-! ## Folder controller (`folder.controller.js`) -/

/-- Outcome of `createFolder`; constructors follow the controller's
responses in order. -/
inductive CreateOutcome where
  | invalidName
  | nameConflict
  | parentNotFound
  | noPermission
  | created
deriving DecidableEq, Repr

/-- `createFolder` (folder.controller.js:553).  `newId` stands for the
fresh `ObjectId` minted for the document.  The controller checks the
sibling name conflict, then (when a parent is given) resolves it, checks
edit permission, increments its `folderCount` and saves it, sets the
path from the parent's `path`/`name`, and finally saves the new
document (whose `pre('save')` hook runs against the updated store). -/
def createFolder (s : Store) (userId : Id) (name : String) (parent : Option Id)
    (newId : Id) : CreateOutcome × Store :=
  if trimString name == "" then (.invalidName, s)
  else
    let trimmed := trimString name
    match s.folders.find? (fun f =>
        f.name == trimmed && f.parent == parent && f.owner == userId && !f.isTrash) with
    | some _ => (.nameConflict, s)
    | none =>
      match parent with
      | some pid =>
          match findFolder s pid with
          | none => (.parentNotFound, s)
          | some parentFolder =>
              if !(parentFolder.owner == userId ||
                   folderHasPermission parentFolder userId .edit) then
                (.noPermission, s)
              else
                let parentFolder' :=
                  { parentFolder with folderCount := parentFolder.folderCount + 1 }
                let s1 := { s with folders := saveFolderDoc s.folders parentFolder' }
                let doc : FolderDoc :=
                  { fid := newId, name := trimmed, parent := some pid, owner := userId,
                    path := parentFolder.path ++ parentFolder.name ++ "/",
                    sharedWith := [], isTrash := false, folderCount := 0 }
                (.created, folderSaveNew s1 doc)
      | none =>
          let doc : FolderDoc :=
            { fid := newId, name := trimmed, parent := none, owner := userId,
              path := "/", sharedWith := [], isTrash := false, folderCount := 0 }
          (.created, folderSaveNew s doc)

/-- `isDescendantFolder(parentId, childId)` (folder.controller.js:1247):
walks the parent chain starting at `childId`; returns true when some
visited folder's parent is `parentId`.  The JS `while` loop has no
bound; the fuel passed at the call site (`s.folders.length + 1`)
dominates every parent chain of an acyclic store. -/
def isDescendantFolder (s : Store) : Nat → Id → Option Id → Bool
  | _, _, none => false
  | 0, _, some _ => false
  | fuel + 1, parentId, some currentId =>
      match findFolder s currentId with
      | none => false
      | some folder =>
          if folder.parent == some parentId then true
          else isDescendantFolder s fuel parentId folder.parent

/-- The *controller's* `updateDescendantPaths` helper
(folder.controller.js:1268) — unlike the model-level helper of the same
name it correctly closes over the `Folder` model, so it works: it
re-paths each child whose path changed and recurses.  The children list
is snapshotted per level; each child save modifies only `path`, so the
model hook's parent branch is not taken. -/
def ctrlUpdateDescendantPaths (s : Store) : Nat → Id → String → Store
  | 0, _, _ => s
  | fuel + 1, parentId, parentPath =>
      let children := s.folders.filter (fun f => f.parent == some parentId)
      children.foldl (fun acc child =>
        let newPath := parentPath ++ child.name ++ "/"
        if child.path != newPath then
          let acc1 := { acc with folders := saveFolderDoc acc.folders { child with path := newPath } }
          ctrlUpdateDescendantPaths acc1 fuel child.fid newPath
        else acc) s

/-- Outcome of `moveFolder`; constructors follow the controller's
responses in order.  `saveError` is the 500 response produced when
`folder.save()` rejects (see `folderSaveExisting`). -/
inductive MoveOutcome where
  | folderNotFound
  | noPermissionSource
  | movedToRoot
  | destNotFound
  | noPermissionDest
  | circularSelf
  | circularDescendant
  | nameConflict
  | moved
  | saveError
deriving DecidableEq, Repr

/-- `moveFolder` (folder.controller.js:1103).  All validation (source
permission, destination existence and permission, the two circular
checks, the destination name conflict) happens before any mutation; the
`folderCount` `updateOne`s happen before `folder.save()`, so when the
save rejects they remain applied. -/
def moveFolder (s : Store) (id : Id) (parentId : Option Id) (userId : Id) :
    MoveOutcome × Store :=
  match findFolder s id with
  | none => (.folderNotFound, s)
  | some folder =>
    if !(folder.owner == userId || folderHasPermission folder userId .edit) then
      (.noPermissionSource, s)
    else
      match parentId with
      | none =>
          let s1 :=
            match folder.parent with
            | some oldParent => incFolderCount s oldParent (-1)
            | none => s
          let doc := { folder with parent := none, path := "/" }
          match folderSaveExisting s1 doc (folder.parent != none) with
          | .error _ => (.saveError, s1)
          | .ok s2 =>
              (.movedToRoot,
                ctrlUpdateDescendantPaths s2 (s2.folders.length + 1) doc.fid doc.path)
      | some pid =>
          match findFolder s pid with
          | none => (.destNotFound, s)
          | some newParent =>
            if !(newParent.owner == userId ||
                 folderHasPermission newParent userId .edit) then
              (.noPermissionDest, s)
            else if folder.fid == pid then (.circularSelf, s)
            else if isDescendantFolder s (s.folders.length + 1) folder.fid (some pid) then
              (.circularDescendant, s)
            else
              match s.folders.find? (fun f =>
                  f.name == folder.name && f.parent == some pid &&
                  f.owner == folder.owner && !f.isTrash && f.fid != folder.fid) with
              | some _ => (.nameConflict, s)
              | none =>
                  let s1 :=
                    match folder.parent with
                    | some oldParent =>
                        if oldParent != pid then incFolderCount s oldParent (-1) else s
                    | none => s
                  let s2 :=
                    if folder.parent != some pid then incFolderCount s1 pid 1 else s1
                  let newPath := newParent.path ++ newParent.name ++ "/"
                  let doc := { folder with parent := some pid, path := newPath }
                  match folderSaveExisting s2 doc (folder.parent != some pid) with
                  | .error _ => (.saveError, s2)
                  | .ok s3 =>
                      (.moved,
                        ctrlUpdateDescendantPaths s3 (s3.folders.length + 1) doc.fid doc.path)

/-- `deleteFolderRecursive` (folder.controller.js:1081): deletes all
files of the folder, snapshots the subfolder list, recursively deletes
each subfolder against the evolving store, then deletes the folder
itself.  The JS recursion is bounded only by tree depth; the fuel passed
at the call site (`s.folders.length + 1`) dominates the depth of any
acyclic store. -/
def deleteFolderRecursive (s : Store) : Nat → Id → Store
  | 0, _ => s
  | fuel + 1, folderId =>
      let s1 := { s with files := s.files.filter (fun f => !(f.folder == some folderId)) }
      let subfolders := s1.folders.filter (fun f => f.parent == some folderId)
      let s2 := subfolders.foldl (fun acc sub => deleteFolderRecursive acc fuel sub.fid) s1
      { s2 with folders := s2.folders.filter (fun f => !(f.fid == folderId)) }

/-- Outcome of `deleteFolder`. -/
inductive DeleteOutcome where
  | notFound
  | noPermission
  | deletedPermanently
  | trashed
deriving DecidableEq, Repr

/-- `deleteFolder` (folder.controller.js:999).  The permanent branch
recursively hard-deletes the subtree and then decrements the original
parent's `folderCount`; the trash branch flags the folder, decrements
the parent's count and shallowly trashes direct children.  A missing id
is answered with 404 (`notFound`) before either branch. -/
def deleteFolder (s : Store) (id : Id) (permanent : Bool) (userId : Id) :
    DeleteOutcome × Store :=
  match findFolder s id with
  | none => (.notFound, s)
  | some folder =>
    if !(folder.owner == userId || folderHasPermission folder userId .manage) then
      (.noPermission, s)
    else if permanent then
      let s1 := deleteFolderRecursive s (s.folders.length + 1) folder.fid
      let s2 :=
        match folder.parent with
        | some p => incFolderCount s1 p (-1)
        | none => s1
      (.deletedPermanently, s2)
    else
      let s1 := { s with folders := saveFolderDoc s.folders { folder with isTrash := true } }
      let s2 :=
        match folder.parent with
        | some p => incFolderCount s1 p (-1)
        | none => s1
      let files' :=
        s2.files.map (fun f =>
          if f.folder == some folder.fid then { f with status := FileStatus.deleted } else f)
      let s3 := { s2 with files := files' }
      let folders' :=
        s3.folders.map (fun f =>
          if f.parent == some folder.fid then { f with isTrash := true } else f)
      let s4 := { s3 with folders := folders' }
      (.trashed, s4)

/-! ## File model save semantics (`file.model.js`)

`fileSchema.pre('save')` runs when a document is saved.  For an
existing document whose `storage.key` path was modified it pushes a
version-history entry and increments `currentVersion`.  Note that the
hook runs *after* the controller has already assigned the new key to
the document, so the entry it pushes records the document's current —
i.e. the *new* — `storage.key` (its comment says "Add current version
to versions array before updating", but by hook time the key is already
updated). -/

/-- The `pre('save')` hook applied to an existing (non-new) file
document. `storageKeyModified` is `this.isModified('storage.key')`; the
inner guard is `if (this.storage && this.storage.key)`. -/
def fileSaveHook (doc : FileDoc) (storageKeyModified : Bool) : FileDoc :=
  if storageKeyModified then
    match doc.storageKey with
    | some key =>
        let entry : VersionEntry :=
          { version := doc.currentVersion, storageKey := key, size := doc.size,
            mimeType := doc.mimeType, uploadedBy := doc.owner }
        { doc with versions := doc.versions ++ [entry],
                   currentVersion := doc.currentVersion + 1 }
    | none => doc
  else doc

/-- Persisting an existing file document after running the hook. -/
def saveFileDoc (s : Store) (doc : FileDoc) (storageKeyModified : Bool) : Store :=
  { s with files := updateOneFile s.files doc.fid (fun _ => fileSaveHook doc storageKeyModified) }

/-- Inserting a new file document (the hook's `isNew` branch only sets
timestamps). -/
def insertFileDoc (s : Store) (doc : FileDoc) : Store :=
  { s with files := s.files ++ [doc] }

/-! ## File controller (`file.controller.js`) -/

/-- Outcome of a call to the S3 storage collaborator
(`storageService.uploadFile` / `quarantineFile` /
`restoreFromQuarantine`): either a new locator or a thrown error. -/
inductive StorageOutcome where
  | ok (key url : String)
  | failure
deriving DecidableEq, Repr

/-- Outcome of `riskScoringService.calculateRiskScore`: a returned
verdict, or a thrown error / timeout. -/
inductive RiskOutcome where
  | verdict (riskScore : Nat) (riskLevel : RiskLevel) (isMalicious : Bool)
  | failure
deriving DecidableEq, Repr

/-- Outcome of `uploadFile`; constructors follow the controller's
responses in order. -/
inductive UploadOutcome where
  | tooLarge
  | blocked
  | userNotFound
  | quotaExceeded
  | storageError
  | uploaded
deriving DecidableEq, Repr

/-- `uploadFile` (file.controller.js:17).  When the risk collaborator
*returns* a malicious or high-risk verdict the request is rejected with
403 before any record is created; when the collaborator *throws*, a
conservative verdict (score 100, high, malicious) is synthesised and
the flow continues.  The record is created with status `quarantined`
iff the verdict is malicious; after the storage upload succeeds the
status is unconditionally set to `active` and the record saved (the
save modifies `storage.key`, so the model hook pushes a version entry).
If the storage upload throws, the provisional record is deleted. -/
def uploadFile (s : Store) (userId : Id) (name : String) (size : Nat)
    (mimeType : String) (folderId : Option Id) (maxFileSize : Nat)
    (risk : RiskOutcome) (storage : StorageOutcome) (newId : Id) :
    UploadOutcome × Store :=
  if size > maxFileSize then (.tooLarge, s)
  else
    let assessed : Option RiskAssessment :=
      match risk with
      | .verdict score level malicious =>
          if malicious || level == .high then none
          else some { riskScore := score, riskLevel := level,
                      isMalicious := malicious, requiresReview := false }
      | .failure =>
          some { riskScore := 100, riskLevel := .high,
                 isMalicious := true, requiresReview := true }
    match assessed with
    | none => (.blocked, s)
    | some assessment =>
        match findUser s userId with
        | none => (.userNotFound, s)
        | some user =>
          if user.storageUsed + size > user.storageQuota then (.quotaExceeded, s)
          else
            let fileRecord : FileDoc :=
              { fid := newId, name := name, owner := userId, folder := folderId,
                size := size, mimeType := mimeType,
                status := if assessment.isMalicious then .quarantined else .active,
                storageKey := none, storageUrl := none, sharedWith := [],
                currentVersion := 1, versions := [],
                riskAssessment := some assessment, downloads := [] }
            let s1 := insertFileDoc s fileRecord
            match storage with
            | .failure =>
                (.storageError, { s1 with files := s1.files.filter (fun f => !(f.fid == newId)) })
            | .ok key url =>
                let fileRecord' :=
                  { fileRecord with storageKey := some key, storageUrl := some url,
                                    status := .active }
                let s2 := saveFileDoc s1 fileRecord' true
                let users' :=
                  updateOneUser s2.users userId
                    (fun u => { u with storageUsed := u.storageUsed + size })
                (.uploaded, { s2 with users := users' })

/-- Outcome of `downloadFile`. -/
inductive DownloadOutcome where
  | notFound
  | quarantineBlocked
  | redirect
deriving DecidableEq, Repr

/-- `downloadFile` (file.controller.js:234): the query requires the
caller to be the owner or to hold a `view`/`edit` grant; a quarantined
file is answered with 403 before any signed URL is produced; otherwise
a download-history entry is recorded and the caller is redirected. -/
def downloadFile (s : Store) (id : Id) (userId : Id) : DownloadOutcome × Store :=
  match s.files.find? (fun f => f.fid == id &&
      (f.owner == userId || f.sharedWith.any (fun share =>
        share.user == userId &&
          (share.permission == .view || share.permission == .edit)))) with
  | none => (.notFound, s)
  | some file =>
    if file.status == .quarantined then (.quarantineBlocked, s)
    else
      let file' := { file with downloads := file.downloads ++ [userId] }
      (.redirect, { s with files := updateOneFile s.files file.fid (fun _ => file') })

/-- Outcome of `quarantineFile`.  `alreadyQuarantined` is the 200
"File is already quarantined" no-op response. -/
inductive QuarantineOutcome where
  | notFound
  | alreadyQuarantined
  | storageError
  | quarantined
deriving DecidableEq, Repr

/-- `quarantineFile` (file.controller.js:741): a file that is already
`quarantined` is answered with a 200 no-op; otherwise — whatever the
current status is — the storage collaborator relocates the object, and
only then are the status and the new locator written.  A thrown
relocation error propagates to the catch block (500) before any field
was assigned, so the record is unchanged.  The save modifies
`storage.key`, so the model hook appends a version entry. -/
def quarantineFile (s : Store) (id : Id) (_adminId : Id) (storage : StorageOutcome) :
    QuarantineOutcome × Store :=
  match findFile s id with
  | none => (.notFound, s)
  | some file =>
    if file.status == .quarantined then (.alreadyQuarantined, s)
    else
      match storage with
      | .failure => (.storageError, s)
      | .ok key url =>
          let file1 := { file with status := FileStatus.quarantined }
          let file' := { file1 with storageKey := some key, storageUrl := some url }
          (.quarantined, saveFileDoc s file' true)

/-- Outcome of `restoreFile`.  `notQuarantined` is the 400 "File is not
quarantined" rejection. -/
inductive RestoreOutcome where
  | notFound
  | notQuarantined
  | storageError
  | restored
deriving DecidableEq, Repr

/-- `restoreFile` (file.controller.js:801): only a `quarantined` file
may be restored; the storage collaborator moves the object back before
the status flips to `active`; a thrown relocation error leaves the
record unchanged. -/
def restoreFile (s : Store) (id : Id) (_adminId : Id) (storage : StorageOutcome) :
    RestoreOutcome × Store :=
  match findFile s id with
  | none => (.notFound, s)
  | some file =>
    if !(file.status == .quarantined) then (.notQuarantined, s)
    else
      match storage with
      | .failure => (.storageError, s)
      | .ok key url =>
          let file1 := { file with status := FileStatus.active }
          let file' := { file1 with storageKey := some key, storageUrl := some url }
          (.restored, saveFileDoc s file' true)

/-! ## Sharing (`folder.controller.part2.js` / `file.controller.js`) -/

/-- Outcome of `shareFolder` / `shareFile`. -/
inductive ShareOutcome where
  | invalidPermission
  | notFound
  | noPermission
  | selfShare
  | userNotFound
  | shared
deriving DecidableEq, Repr

/-- `shareFolder` (folder.controller.part2.js:11).  The permission
string is validated against `Object.values(FILE_PERMISSIONS)` — every
`Permission` value passes.  The sharer must be the owner or hold a
`manage` grant; self-sharing is rejected; the grantee's entry is
replaced in place when present, appended otherwise. -/
def shareFolder (s : Store) (id : Id) (currentUserId : Id) (granteeId : Id)
    (permission : Permission) : ShareOutcome × Store :=
  if !(permissionLevels.contains permission) then (.invalidPermission, s)
  else
    match findFolder s id with
    | none => (.notFound, s)
    | some folder =>
      if !(folder.owner == currentUserId ||
           folderHasPermission folder currentUserId .manage) then
        (.noPermission, s)
      else if granteeId == currentUserId then (.selfShare, s)
      else if (findUser s granteeId).isNone then (.userNotFound, s)
      else
        let newGrant : Grant :=
          { user := granteeId, permission := permission, sharedBy := currentUserId }
        let sharedWith' :=
          match folder.sharedWith.findIdx? (fun share => share.user == granteeId) with
          | some i => folder.sharedWith.set i newGrant
          | none => folder.sharedWith ++ [newGrant]
        let folder' := { folder with sharedWith := sharedWith' }
        (.shared, { s with folders := saveFolderDoc s.folders folder' })

/-- `shareFile` (file.controller.js:589).  Unlike `shareFolder`, the
permission is validated against `['view', 'edit']` (so `manage` is
rejected with 400) and the file is looked up with
`File.findOne({_id: id, owner: userId})` — only the *owner* can share;
a non-owner (even one holding a `manage` grant) gets 404.  The upsert
updates the existing entry's permission in place or appends a new
entry. -/
def shareFile (s : Store) (id : Id) (userId : Id) (granteeId : Id)
    (permission : Permission) : ShareOutcome × Store :=
  if !(permission == .view || permission == .edit) then (.invalidPermission, s)
  else if userId == granteeId then (.selfShare, s)
  else
    match s.files.find? (fun f => f.fid == id && f.owner == userId) with
    | none => (.notFound, s)
    | some file =>
      if (findUser s granteeId).isNone then (.userNotFound, s)
      else
        let sharedWith' :=
          match file.sharedWith.findIdx? (fun share => share.user == granteeId) with
          | some i =>
              file.sharedWith.modify (fun share => { share with permission := permission }) i
          | none =>
              file.sharedWith ++
                [{ user := granteeId, permission := permission, sharedBy := userId }]
        let file' := { file with sharedWith := sharedWith' }
        (.shared, { s with files := updateOneFile s.files file.fid (fun _ => file') })

/-! ## Support lemmas -/

theorem findFolder_fid {s : Store} {i : Id} {f : FolderDoc}
    (h : findFolder s i = some f) : f.fid = i := by
  have := List.find?_some h
  simpa using this

theorem findFile_fid {s : Store} {i : Id} {f : FileDoc}
    (h : findFile s i = some f) : f.fid = i := by
  have := List.find?_some h
  simpa using this

theorem findFile_mem {s : Store} {i : Id} {f : FileDoc}
    (h : findFile s i = some f) : f ∈ s.files :=
  List.mem_of_find?_eq_some h

/-- Ownership always passes `hasPermission`. -/
theorem hasPermissionOn_owner {owner userId : Id} (sharedWith : List Grant)
    (required : Permission) (h : owner = userId) :
    hasPermissionOn owner sharedWith userId required = true := by
  simp [hasPermissionOn, h]

/-- A non-owner with no grant entry fails every check. -/
theorem hasPermissionOn_noGrant {owner userId : Id} {sharedWith : List Grant}
    (required : Permission) (h : owner ≠ userId)
    (hfind : sharedWith.find? (fun share => share.user == userId) = none) :
    hasPermissionOn owner sharedWith userId required = false := by
  simp [hasPermissionOn, h, hfind]

/-- A non-owner with a grant passes exactly when the grant's ordinal
dominates the required ordinal. -/
theorem hasPermissionOn_grant {owner userId : Id} {sharedWith : List Grant}
    {g : Grant} (required : Permission) (h : owner ≠ userId)
    (hfind : sharedWith.find? (fun share => share.user == userId) = some g) :
    (hasPermissionOn owner sharedWith userId required = true ↔
      permOrdinal g.permission ≥ permOrdinal required) := by
  simp [hasPermissionOn, h, hfind, indexOf_permissionLevels]

/-! ## Claim C3 -/

/-- **C3** (confirmed).  For every resource (folder or file), user, and
required level, the permission check returns true when the user is the
resource owner; returns false when the user is not the owner and has no
entry in `sharedWith`; and otherwise returns true iff the ordinal of the
user's granted level is ≥ the ordinal of the required level under the
fixed ordering view(0) < edit(1) < manage(2). -/
theorem claim_C3_permission_check (F : FolderDoc) (G : FileDoc) (userId : Id)
    (required : Permission) :
    (F.owner = userId → folderHasPermission F userId required = true) ∧
    (F.owner ≠ userId →
      F.sharedWith.find? (fun share => share.user == userId) = none →
      folderHasPermission F userId required = false) ∧
    (∀ g : Grant, F.owner ≠ userId →
      F.sharedWith.find? (fun share => share.user == userId) = some g →
      (folderHasPermission F userId required = true ↔
        permOrdinal g.permission ≥ permOrdinal required)) ∧
    (G.owner = userId → fileHasPermission G userId required = true) ∧
    (G.owner ≠ userId →
      G.sharedWith.find? (fun share => share.user == userId) = none →
      fileHasPermission G userId required = false) ∧
    (∀ g : Grant, G.owner ≠ userId →
      G.sharedWith.find? (fun share => share.user == userId) = some g →
      (fileHasPermission G userId required = true ↔
        permOrdinal g.permission ≥ permOrdinal required)) := by
  refine ⟨?_, ?_, ?_, ?_, ?_, ?_⟩
  · exact fun h => hasPermissionOn_owner F.sharedWith required h
  · exact fun h hfind => hasPermissionOn_noGrant required h hfind
  · exact fun g h hfind => hasPermissionOn_grant required h hfind
  · exact fun h => hasPermissionOn_owner G.sharedWith required h
  · exact fun h hfind => hasPermissionOn_noGrant required h hfind
  · exact fun g h hfind => hasPermissionOn_grant required h hfind

/-- Concrete folder for the C3 witness: owner 1, user 2 holds `edit`. -/
def c3Folder : FolderDoc :=
  { fid := 1, name := "docs", parent := none, path := "/", owner := 1,
    sharedWith := [{ user := 2, permission := .edit, sharedBy := 1 }],
    isTrash := false, folderCount := 0 }

/-- Concrete file for the C3 witness: owner 1, user 2 holds `edit`. -/
def c3File : FileDoc :=
  { fid := 7, name := "a.txt", owner := 1, folder := none, size := 3,
    mimeType := "text/plain", status := .active, storageKey := some "k",
    storageUrl := some "u",
    sharedWith := [{ user := 2, permission := .edit, sharedBy := 1 }],
    currentVersion := 1, versions := [], riskAssessment := none, downloads := [] }

/-- Witness for C3: the owner passes a `manage` check, the `edit`
grantee passes `view` and `edit` but fails `manage`, and a stranger
fails `view`. -/
theorem claim_C3_permission_check_witness :
    folderHasPermission c3Folder 1 .manage = true ∧
    folderHasPermission c3Folder 2 .view = true ∧
    fileHasPermission c3File 2 .edit = true ∧
    fileHasPermission c3File 2 .manage = false ∧
    fileHasPermission c3File 3 .view = false := by
  refine ⟨?_, ?_, ?_, ?_, ?_⟩
  · exact (claim_C3_permission_check c3Folder c3File 1 .manage).1 rfl
  · exact ((claim_C3_permission_check c3Folder c3File 2 .view).2.2.1
      { user := 2, permission := .edit, sharedBy := 1 }
      (by decide) (by decide)).mpr (by decide)
  · exact ((claim_C3_permission_check c3Folder c3File 2 .edit).2.2.2.2.2
      { user := 2, permission := .edit, sharedBy := 1 }
      (by decide) (by decide)).mpr (by decide)
  · have h := (claim_C3_permission_check c3Folder c3File 2 .manage).2.2.2.2.2
      { user := 2, permission := .edit, sharedBy := 1 } (by decide) (by decide)
    cases hb : fileHasPermission c3File 2 .manage
    · rfl
    · exact absurd (h.mp hb) (by decide)
  · exact (claim_C3_permission_check c3Folder c3File 3 .view).2.2.2.2.1
      (by decide) (by decide)

/-! ## Claim C1 -/

/-- The specification's notion of "descendant": the ids met when
walking the parent chain upward from `start`.  `fuel` bounds the walk;
`s.folders.length` dominates the chain length of every acyclic store,
which is the regime the specification describes. -/
def ancestorChainIds (s : Store) : Nat → Option Id → List Id
  | _, none => []
  | 0, some _ => []
  | fuel + 1, some i =>
      match findFolder s i with
      | none => []
      | some f => i :: ancestorChainIds s fuel f.parent

/-- If `a` occurs on the parent chain above `b`, the controller's
`isDescendantFolder` walk (which looks for a visited folder whose
parent is `a`) finds it. -/
theorem isDescendantFolder_of_mem_chain {s : Store} {a : Id} :
    ∀ (fuel : Nat) (b : Id) (fb : FolderDoc),
      findFolder s b = some fb →
      a ∈ ancestorChainIds s fuel fb.parent →
      isDescendantFolder s (fuel + 1) a (some b) = true := by
  intro fuel
  induction fuel with
  | zero =>
      intro b fb _ hmem
      cases hp : fb.parent <;> simp [ancestorChainIds, hp] at hmem
  | succ n ih =>
      intro b fb hb hmem
      cases hp : fb.parent with
      | none => simp [ancestorChainIds, hp] at hmem
      | some p =>
          rw [hp] at hmem
          cases hg : findFolder s p with
          | none => simp [ancestorChainIds, hg] at hmem
          | some g =>
              simp only [ancestorChainIds, hg, List.mem_cons] at hmem
              rcases hmem with rfl | hmem
              · simp [isDescendantFolder, hb, hp]
              · have htail := ih p g hg hmem
                by_cases hpa : p = a
                · subst hpa
                  simp [isDescendantFolder, hb, hp]
                · simp [isDescendantFolder, hb, hp, hpa, htail]

/-- **C1** (confirmed).  For every folder `a` and destination `b`, if
`b` is `a` itself or a descendant of `a` (i.e. `a` lies on `b`'s parent
chain), then `moveFolder` — given that both folders resolve and the
caller passes both edit-permission gates, the checks that precede the
circular check — answers with one of the two circular-reference
rejections and returns the store byte-for-byte unchanged: no
`folderCount`, `parent` or `path` of any folder is touched. -/
theorem claim_C1_move_circular_rejected (s : Store) (a b u : Id)
    (fa fb : FolderDoc)
    (ha : findFolder s a = some fa) (hb : findFolder s b = some fb)
    (hpa : (fa.owner == u || folderHasPermission fa u .edit) = true)
    (hpb : (fb.owner == u || folderHasPermission fb u .edit) = true)
    (hcirc : b = a ∨ a ∈ ancestorChainIds s s.folders.length fb.parent) :
    (moveFolder s a (some b) u).2 = s ∧
    ((moveFolder s a (some b) u).1 = .circularSelf ∨
      (moveFolder s a (some b) u).1 = .circularDescendant) := by
  have hfid : fa.fid = a := findFolder_fid ha
  rcases hcirc with rfl | hmem
  · have hself : (fa.fid == b) = true := by simp [hfid]
    simp [moveFolder, ha, hb, hpa, hpb, hself]
  · by_cases hself : fa.fid = b
    · simp [moveFolder, ha, hb, hpa, hpb, hself]
    · have hdesc : isDescendantFolder s (s.folders.length + 1) a (some b) = true :=
        isDescendantFolder_of_mem_chain s.folders.length b fb hb hmem
      rw [← hfid] at hdesc
      simp [moveFolder, ha, hb, hpa, hpb, hself, hdesc]

/-- Concrete store for the C1 witness: `B` (id 2) is a child of `A`
(id 1), both owned by user 10. -/
def c1Store : Store :=
  { folders :=
      [{ fid := 1, name := "A", parent := none, path := "/", owner := 10,
         sharedWith := [], isTrash := false, folderCount := 1 },
       { fid := 2, name := "B", parent := some 1, path := "/A", owner := 10,
         sharedWith := [], isTrash := false, folderCount := 0 }],
    files := [], users := [] }

/-- Witness for C1: moving `A` into its child `B` is rejected as
circular and the store is unchanged. -/
theorem claim_C1_move_circular_rejected_witness :
    (moveFolder c1Store 1 (some 2) 10).2 = c1Store ∧
    ((moveFolder c1Store 1 (some 2) 10).1 = .circularSelf ∨
      (moveFolder c1Store 1 (some 2) 10).1 = .circularDescendant) :=
  claim_C1_move_circular_rejected c1Store 1 2 10
    { fid := 1, name := "A", parent := none, path := "/", owner := 10,
      sharedWith := [], isTrash := false, folderCount := 1 }
    { fid := 2, name := "B", parent := some 1, path := "/A", owner := 10,
      sharedWith := [], isTrash := false, folderCount := 0 }
    (by decide) (by decide) (by decide) (by decide) (by decide)

/-! ## Claim C2 -/

/-- The specification's path invariant, decided over a store: every
folder with a resolvable parent satisfies
`path == parent.path + parent.name + "/"`. -/
def pathInvariantHolds (s : Store) : Bool :=
  s.folders.all (fun f =>
    match f.parent with
    | none => true
    | some p =>
        match findFolder s p with
        | none => true
        | some parentFolder => f.path == parentFolder.path ++ parentFolder.name ++ "/")

/-- Empty store from which the C2 scenario starts. -/
def c2Store0 : Store := { folders := [], files := [], users := [] }

/-- Store after `createFolder(owner 10, "A", root)`. -/
def c2Store1 : Store := (createFolder c2Store0 10 "A" none 1).2

/-- Store after additionally `createFolder(owner 10, "B", parent A)`. -/
def c2Store2 : Store := (createFolder c2Store1 10 "B" (some 1) 2).2

/-- **C2** (code bug).  The path invariant does *not* survive a
completed `createFolder`: creating `A` at root and then `B` under `A`
leaves `B.path = "/A"`, not `parent.path + parent.name + "/" = "/A/"`.
The controller computes the correct `"/A/"`, but the model's
`pre('save')` hook overwrites it with `parentFolder.fullPath`, whose
root-parent branch (`/${name}`) omits the trailing slash. -/
theorem claim_C2_path_invariant_violated :
    (createFolder c2Store0 10 "A" none 1).1 = .created ∧
    (createFolder c2Store1 10 "B" (some 1) 2).1 = .created ∧
    (findFolder c2Store2 2).map (fun f => f.parent) = some (some 1) ∧
    (findFolder c2Store2 2).map (fun f => f.path) = some "/A" ∧
    (findFolder c2Store2 1).map (fun f => f.path ++ f.name ++ "/") = some "/A/" ∧
    pathInvariantHolds c2Store2 = false := by
  decide

/-! ## Claim C10 -/

/-- Store for the C10 counterexample: `B` (id 2) is a child of `A`
(id 1); a second live root-level folder (id 3) already carries the name
`B`, so the claimed "no sibling check" move would land on a root-level
name conflict. -/
def c10Store : Store :=
  { folders :=
      [{ fid := 1, name := "A", parent := none, path := "/", owner := 10,
         sharedWith := [], isTrash := false, folderCount := 1 },
       { fid := 2, name := "B", parent := some 1, path := "/A", owner := 10,
         sharedWith := [], isTrash := false, folderCount := 0 },
       { fid := 3, name := "B", parent := none, path := "/", owner := 10,
         sharedWith := [], isTrash := false, folderCount := 0 }],
    files := [], users := [] }

/-- Counterexample to **C10** as stated: moving `B` to root does *not*
succeed.  The controller skips every conflict/circular check and
decrements `A.folderCount`, but `folder.save()` then rejects inside the
folder model's `pre('save')` hook (its `updateDescendantPaths` helper
dereferences an unbound `this`), so the call answers 500 with `B`'s
parent and path unchanged while the decrement stays applied. -/
theorem claim_C10_counterexample :
    (moveFolder c10Store 2 none 10).1 = .saveError ∧
    (moveFolder c10Store 2 none 10).1 ≠ .movedToRoot ∧
    (findFolder (moveFolder c10Store 2 none 10).2 2).map
      (fun f => (f.parent, f.path)) = some (some 1, "/A") ∧
    (findFolder (moveFolder c10Store 2 none 10).2 1).map
      (fun f => f.folderCount) = some 0 := by
  decide

/-- **C10** (corrected).  For every folder whose caller passes the
edit-permission check, `moveFolder` with a null destination indeed
performs no sibling name-conflict check and no circular-reference check
and decrements the old parent's `folderCount` — but when the folder has
a real parent the subsequent `folder.save()` is rejected by the folder
model's `pre('save')` hook (its descendant-path helper throws a
`TypeError` on its unbound `this`), so the operation returns a 500
error with the parent/path update unpersisted and only the decrement
applied.  The absence of any root-level name-uniqueness check is
reflected in the statement quantifying over arbitrary stores. -/
theorem claim_C10_move_to_root_errors (s : Store) (id u oldParent : Id)
    (folder : FolderDoc)
    (hf : findFolder s id = some folder)
    (hperm : (folder.owner == u || folderHasPermission folder u .edit) = true)
    (hparent : folder.parent = some oldParent) :
    moveFolder s id none u = (.saveError, incFolderCount s oldParent (-1)) := by
  simp [moveFolder, hf, hperm, hparent, folderSaveExisting]

/-- Witness for the amended C10 on the concrete store. -/
theorem claim_C10_move_to_root_errors_witness :
    moveFolder c10Store 2 none 10 = (.saveError, incFolderCount c10Store 1 (-1)) :=
  claim_C10_move_to_root_errors c10Store 2 10 1
    { fid := 2, name := "B", parent := some 1, path := "/A", owner := 10,
      sharedWith := [], isTrash := false, folderCount := 0 }
    (by decide) (by decide) (by decide)

/-! ## Claim C8 -/

/-- Store for C8: root `R` (id 1) contains `A` (id 2), which contains
`B` (id 3); file 101 lives in `A` and file 102 in `B`. -/
def c8Store : Store :=
  { folders :=
      [{ fid := 1, name := "R", parent := none, path := "/", owner := 10,
         sharedWith := [], isTrash := false, folderCount := 1 },
       { fid := 2, name := "A", parent := some 1, path := "/R", owner := 10,
         sharedWith := [], isTrash := false, folderCount := 1 },
       { fid := 3, name := "B", parent := some 2, path := "/RA/", owner := 10,
         sharedWith := [], isTrash := false, folderCount := 0 }],
    files :=
      [{ fid := 101, name := "a.txt", owner := 10, folder := some 2, size := 5,
         mimeType := "text/plain", status := .active, storageKey := some "k1",
         storageUrl := some "u1", sharedWith := [], currentVersion := 1,
         versions := [], riskAssessment := none, downloads := [] },
       { fid := 102, name := "b.txt", owner := 10, folder := some 3, size := 7,
         mimeType := "text/plain", status := .active, storageKey := some "k2",
         storageUrl := some "u2", sharedWith := [], currentVersion := 1,
         versions := [], riskAssessment := none, downloads := [] }],
    users := [] }

/-! ### Reachability along parent pointers and acyclicity

The general removal theorem for permanent deletion quantifies over
stores whose parent graph is a forest.  `ReachesUpN s n a b` says the
walk that starts at id `a` and repeatedly follows the stored parent
pointer reaches id `b` after exactly `n` successful lookups, i.e. `a`
is `b` or lies in `b`'s subtree.  Acyclicity is supplied as a rank
function that strictly decreases from child to parent, the standard
well-foundedness witness for a forest. -/

/-- Parent-pointer reachability: `a` reaches `b` upward in `n` steps. -/
inductive ReachesUpN (s : Store) : Nat → Id → Id → Prop where
  | refl (i : Id) : ReachesUpN s 0 i i
  | step {i j r : Id} {n : Nat} (f : FolderDoc)
      (hf : findFolder s i = some f) (hp : f.parent = some j)
      (h : ReachesUpN s n j r) : ReachesUpN s (n + 1) i r

/-- `a` reaches `b` upward in some number of steps. -/
def ReachesUp (s : Store) (a b : Id) : Prop :=
  ∃ n, ReachesUpN s n a b

/-- Distinct-fid (well-formed Mongo) folder collections. -/
def UniqFids (l : List FolderDoc) : Prop :=
  l.Pairwise (fun a b => a.fid ≠ b.fid)

/-- A rank function witnessing that the parent graph is a forest:
every stored parent pointer strictly decreases the rank. -/
def RankedForest (s : Store) (rank : Id → Nat) : Prop :=
  ∀ f ∈ s.folders, ∀ p, f.parent = some p → rank p < rank f.fid

theorem findFolder_mem {s : Store} {i : Id} {f : FolderDoc}
    (h : findFolder s i = some f) : f ∈ s.folders :=
  List.mem_of_find?_eq_some h

theorem find?_of_mem_uniq {l : List FolderDoc}
    (hu : l.Pairwise (fun a b => a.fid ≠ b.fid))
    {f : FolderDoc} (hf : f ∈ l) : l.find? (fun x => x.fid == f.fid) = some f := by
  induction l with
  | nil => cases hf
  | cons x xs ih =>
      rcases List.mem_cons.mp hf with rfl | hmem
      · exact List.find?_cons_of_pos xs (by simp)
      · have hne : x.fid ≠ f.fid := (List.pairwise_cons.mp hu).1 f hmem
        refine Eq.trans (List.find?_cons_of_neg xs ?_) ?_
        · simp [hne]
        · exact ih (List.pairwise_cons.mp hu).2 hmem

/-- In a distinct-fid store, membership determines the lookup result. -/
theorem findFolder_of_mem {s : Store} (hu : UniqFids s.folders)
    {f : FolderDoc} (hf : f ∈ s.folders) : findFolder s f.fid = some f :=
  find?_of_mem_uniq hu hf

/-- Reachability transfers from a sub-collection to the full store. -/
theorem reachesUpN_lift {a t : Store}
    (hsub : ∀ f, f ∈ a.folders → f ∈ t.folders) (hu : UniqFids t.folders) :
    ∀ {n i r}, ReachesUpN a n i r → ReachesUpN t n i r := by
  intro n i r h
  induction h with
  | refl i => exact .refl i
  | step f hf hp _ ih =>
      have hmem : f ∈ t.folders := hsub f (findFolder_mem hf)
      have hfid := findFolder_fid hf
      have hfind : findFolder t f.fid = some f := findFolder_of_mem hu hmem
      rw [hfid] at hfind
      exact .step f hfind hp ih

/-- Appending one upward step at the top of a chain. -/
theorem reachesUpN_snoc {s : Store} {n : Nat} {a b r : Id} {g : FolderDoc}
    (h : ReachesUpN s n a b) (hg : findFolder s b = some g)
    (hp : g.parent = some r) : ReachesUpN s (n + 1) a r := by
  induction h with
  | refl i => exact .step g hg hp (.refl r)
  | step f hf hpf _ ih => exact .step f hf hpf (ih hg)

/-- Extracting the last chain node below the target: a chain of length
`m + 1` from `i` to `r` passes through a folder whose parent is `r`. -/
theorem reachesUpN_last {s : Store} :
    ∀ {m : Nat} {i r : Id}, ReachesUpN s (m + 1) i r →
      ∃ c : FolderDoc, c ∈ s.folders ∧ c.parent = some r ∧
        ReachesUpN s m i c.fid := by
  intro m
  induction m with
  | zero =>
      intro i r h
      cases h with
      | step f hf hp htail =>
          cases htail
          refine ⟨f, findFolder_mem hf, hp, ?_⟩
          have := findFolder_fid hf
          rw [this]
          exact .refl i
  | succ m ih =>
      intro i r h
      cases h with
      | step f hf hp htail =>
          obtain ⟨c, hcm, hcp, hchain⟩ := ih htail
          exact ⟨c, hcm, hcp, .step f hf hp hchain⟩

/-- Two upward walks from the same start are comparable: the walk is
deterministic, so one endpoint reaches the other. -/
theorem reachesUpN_comparable {s : Store} :
    ∀ {k : Nat} {i a : Id}, ReachesUpN s k i a →
      ∀ {m : Nat} {b : Id}, ReachesUpN s m i b →
        ReachesUp s a b ∨ ReachesUp s b a := by
  intro k
  induction k with
  | zero =>
      intro i a ha m b hb
      cases ha
      exact Or.inl ⟨m, hb⟩
  | succ k ih =>
      intro i a ha m b hb
      cases ha with
      | step f hf hp htail =>
          cases hb with
          | refl => exact Or.inr ⟨k + 1, .step f hf hp htail⟩
          | step f' hf' hp' htail' =>
              have hff : f = f' := by
                rw [hf] at hf'
                exact Option.some.inj hf'
              subst hff
              rw [hp] at hp'
              cases Option.some.inj hp'
              exact ih htail htail'

/-- Ranks strictly decrease along a nonempty upward chain. -/
theorem rank_lt_of_reachesUpN {s : Store} {rank : Id → Nat}
    (hr : RankedForest s rank) :
    ∀ {n : Nat} {a b : Id}, ReachesUpN s n a b → 1 ≤ n → rank b < rank a := by
  intro n
  induction n with
  | zero => intro a b _ h1; omega
  | succ n ih =>
      intro a b h _
      cases h with
      | step f hf hp htail =>
          rename_i j
          have hfid := findFolder_fid hf
          have hstep : rank j < rank a := by
            have h2 := hr f (findFolder_mem hf) j hp
            rw [hfid] at h2
            exact h2
          cases Nat.eq_zero_or_pos n with
          | inl h0 =>
              subst h0
              cases htail
              exact hstep
          | inr hpos => exact Nat.lt_trans (ih htail hpos) hstep

/-! ### Monotonicity of the recursive delete -/

theorem foldl_delete_sublist (fuel : Nat)
    (hstep : ∀ (t : Store) (r : Id),
      (deleteFolderRecursive t fuel r).folders.Sublist t.folders ∧
      (deleteFolderRecursive t fuel r).files.Sublist t.files) :
    ∀ (l : List FolderDoc) (init : Store),
      ((l.foldl (fun acc sub => deleteFolderRecursive acc fuel sub.fid) init).folders.Sublist
        init.folders) ∧
      ((l.foldl (fun acc sub => deleteFolderRecursive acc fuel sub.fid) init).files.Sublist
        init.files) := by
  intro l
  induction l with
  | nil => intro init; exact ⟨List.Sublist.refl _, List.Sublist.refl _⟩
  | cons x xs ih =>
      intro init
      have h1 := hstep init x.fid
      have h2 := ih (deleteFolderRecursive init fuel x.fid)
      exact ⟨h2.1.trans h1.1, h2.2.trans h1.2⟩

theorem deleteFolderRecursive_sublist :
    ∀ (fuel : Nat) (t : Store) (r : Id),
      (deleteFolderRecursive t fuel r).folders.Sublist t.folders ∧
      (deleteFolderRecursive t fuel r).files.Sublist t.files := by
  intro fuel
  induction fuel with
  | zero => intro t r; exact ⟨List.Sublist.refl _, List.Sublist.refl _⟩
  | succ fuel ih =>
      intro t r
      have hfold := foldl_delete_sublist fuel ih
        (({ t with files := t.files.filter (fun f => !(f.folder == some r)) } :
            Store).folders.filter (fun f => f.parent == some r))
        { t with files := t.files.filter (fun f => !(f.folder == some r)) }
      constructor
      · exact (List.filter_sublist _).trans hfold.1
      · exact hfold.2.trans (List.filter_sublist _)

/-- If `x` was present before the fold over the child list but absent
after it, a single recursive step deleted it, and that step's
accumulator is a sub-collection of the initial store. -/
theorem foldl_delete_break (fuel : Nat)
    (hstep : ∀ (t : Store) (r : Id),
      (deleteFolderRecursive t fuel r).folders.Sublist t.folders) :
    ∀ (l : List FolderDoc) (init : Store) (x : FolderDoc),
      x ∈ init.folders →
      x ∉ (l.foldl (fun acc sub => deleteFolderRecursive acc fuel sub.fid) init).folders →
      ∃ (acc : Store) (e : FolderDoc), e ∈ l ∧ acc.folders.Sublist init.folders ∧
        x ∈ acc.folders ∧ x ∉ (deleteFolderRecursive acc fuel e.fid).folders := by
  intro l
  induction l with
  | nil => intro init x hx hout; exact absurd hx hout
  | cons e es ih =>
      intro init x hx hout
      rw [List.foldl_cons] at hout
      by_cases hmem : x ∈ (deleteFolderRecursive init fuel e.fid).folders
      · obtain ⟨acc, e', he', hsub, hin, hdel⟩ :=
          ih (deleteFolderRecursive init fuel e.fid) x hmem hout
        exact ⟨acc, e', List.mem_cons_of_mem e he', hsub.trans (hstep init e.fid),
          hin, hdel⟩
      · exact ⟨init, e, List.mem_cons_self e es, List.Sublist.refl _, hx, hmem⟩

/-- Only subtree members get deleted: a folder removed by
`deleteFolderRecursive t fuel r` either is `r` itself or reaches some
child of `r` along its parent chain in `t`. -/
theorem deleted_reaches_child :
    ∀ (fuel : Nat) (t : Store) (r : Id) (x : FolderDoc),
      UniqFids t.folders → x ∈ t.folders →
      x ∉ (deleteFolderRecursive t fuel r).folders →
      x.fid = r ∨ ∃ c : FolderDoc, c ∈ t.folders ∧ c.parent = some r ∧
        ReachesUp t x.fid c.fid := by
  intro fuel
  induction fuel with
  | zero => intro t r x _ hx hout; exact absurd hx hout
  | succ fuel ih =>
      intro t r x hu hx hout
      set s1 := { t with files := t.files.filter (fun f => !(f.folder == some r)) } with hs1
      set subs := s1.folders.filter (fun f => f.parent == some r) with hsubs
      set s2 := subs.foldl (fun acc sub => deleteFolderRecursive acc fuel sub.fid) s1 with hs2
      have heq : deleteFolderRecursive t (fuel + 1) r =
          { s2 with folders := s2.folders.filter (fun f => !(f.fid == r)) } := rfl
      rw [heq] at hout
      by_cases hx2 : x ∈ s2.folders
      · left
        by_contra hne
        apply hout
        simp only [List.mem_filter]
        exact ⟨hx2, by simp [hne]⟩
      · have hx1 : x ∈ s1.folders := hx
        obtain ⟨acc, e, hel, hsub, hin, hdel⟩ :=
          foldl_delete_break fuel
            (fun t' r' => (deleteFolderRecursive_sublist fuel t' r').1)
            subs s1 x hx1 hx2
        have hsubt : acc.folders.Sublist t.folders := hsub
        have hu_acc : UniqFids acc.folders := hu.sublist hsubt
        have hes : e ∈ t.folders ∧ e.parent = some r := by
          have hmf := List.mem_filter.mp hel
          refine ⟨hmf.1, ?_⟩
          simpa using hmf.2
        rcases ih acc e.fid x hu_acc hin hdel with heqx | ⟨c', hc'm, hc'p, k, hchain⟩
        · right
          refine ⟨e, hes.1, hes.2, 0, ?_⟩
          rw [heqx]
          exact ReachesUpN.refl _
        · right
          have hmemt : ∀ f, f ∈ acc.folders → f ∈ t.folders := fun f hf =>
            hsubt.subset hf
          have hlift := reachesUpN_lift hmemt hu hchain
          have hc't : c' ∈ t.folders := hmemt c' hc'm
          have hfindc' : findFolder t c'.fid = some c' := findFolder_of_mem hu hc't
          exact ⟨e, hes.1, hes.2, k + 1, reachesUpN_snoc hlift hfindc' hc'p⟩

/-- A zero-length chain connects an id with itself. -/
theorem reachesUpN_zero {s : Store} {a b : Id} (h : ReachesUpN s 0 a b) : a = b := by
  cases h
  rfl

/-- In a ranked forest, no upward chain connects two distinct children
of the same folder: the first step from one of them already ascends to
the common parent, and ranks only keep decreasing above it. -/
theorem no_chain_between_siblings {t : Store} {rank : Id → Nat}
    (hu : UniqFids t.folders) (hr : RankedForest t rank)
    {e c : FolderDoc} {r : Id}
    (he : e ∈ t.folders) (hep : e.parent = some r)
    (hc : c ∈ t.folders) (hcp : c.parent = some r)
    (hne : e.fid ≠ c.fid) :
    ¬ ReachesUp t e.fid c.fid := by
  rintro ⟨k, hk⟩
  cases k with
  | zero => exact hne (reachesUpN_zero hk)
  | succ k' =>
      cases hk with
      | step fe hfe hpe htl =>
          rename_i j
          have hfe_e : e = fe := by
            have h2 := findFolder_of_mem hu he
            rw [h2] at hfe
            exact Option.some.inj hfe
          rw [← hfe_e] at hpe
          rw [hep] at hpe
          cases Option.some.inj hpe
          have hrc : rank r < rank c.fid := hr c hc r hcp
          cases Nat.eq_zero_or_pos k' with
          | inl h0 =>
              subst h0
              rw [reachesUpN_zero htl] at hrc
              exact Nat.lt_irrefl _ hrc
          | inr hpos =>
              have hdown := rank_lt_of_reachesUpN hr htl hpos
              exact Nat.lt_irrefl _ (Nat.lt_trans hdown hrc)

/-- A chain that runs entirely through folders still present in a
sub-collection transfers to that sub-collection. -/
theorem reachesUpN_transfer_down {t acc : Store}
    (hu_acc : UniqFids acc.folders)
    {cfid : Id}
    (hH : ∀ g : FolderDoc, g ∈ t.folders → ReachesUp t g.fid cfid → g ∈ acc.folders) :
    ∀ {m a}, ReachesUpN t m a cfid → ReachesUpN acc m a cfid := by
  intro m
  induction m with
  | zero =>
      intro a h
      rw [reachesUpN_zero h]
      exact .refl _
  | succ m ih =>
      intro a h
      cases h with
      | step f hf hp htail =>
          have hfmem : f ∈ t.folders := findFolder_mem hf
          have hfid := findFolder_fid hf
          have hreach : ReachesUp t f.fid cfid := by
            rw [hfid]
            exact ⟨_, .step f hf hp htail⟩
          have hacc : f ∈ acc.folders := hH f hfmem hreach
          have hfind : findFolder acc f.fid = some f := findFolder_of_mem hu_acc hacc
          rw [hfid] at hfind
          exact .step f hfind hp (ih htail)

/-- Permanent deletion removes the whole subtree: in a distinct-fid
ranked forest, after `deleteFolderRecursive t fuel r` no folder whose
id lies on a parent chain into `r` remains, and no file housed in such
a folder remains, provided the chain is shorter than the fuel. -/
theorem deleteFolderRecursive_removes_subtree :
    ∀ (fuel : Nat) (t : Store) (r : Id) (rank : Id → Nat),
      UniqFids t.folders → RankedForest t rank →
      ∀ (a : Id) (n : Nat), ReachesUpN t n a r → n < fuel →
        (∀ f ∈ (deleteFolderRecursive t fuel r).folders, f.fid ≠ a) ∧
        (∀ y ∈ (deleteFolderRecursive t fuel r).files, y.folder ≠ some a) := by
  intro fuel
  induction fuel with
  | zero => intro t r rank _ _ a n _ hn; omega
  | succ fuel ih =>
      intro t r rank hu hr a n hchain hn
      set s1 := { t with files := t.files.filter (fun f => !(f.folder == some r)) } with hs1
      set subs := s1.folders.filter (fun f => f.parent == some r) with hsubs
      set s2 := subs.foldl (fun acc sub => deleteFolderRecursive acc fuel sub.fid) s1 with hs2
      have heq : deleteFolderRecursive t (fuel + 1) r =
          { s2 with folders := s2.folders.filter (fun f => !(f.fid == r)) } := rfl
      rw [heq]
      cases n with
      | zero =>
          have har : a = r := reachesUpN_zero hchain
          subst har
          constructor
          · intro f hf hcon
            have h2 := (List.mem_filter.mp hf).2
            rw [hcon] at h2
            simp at h2
          · intro y hy hcon
            have hfold := foldl_delete_sublist fuel (deleteFolderRecursive_sublist fuel) subs s1
            have hy1 : y ∈ s1.files := hfold.2.subset hy
            have h2 := (List.mem_filter.mp hy1).2
            rw [hcon] at h2
            simp at h2
      | succ m =>
          obtain ⟨c, hcm, hcp, hchain'⟩ := reachesUpN_last hchain
          have hcsubs : c ∈ subs := by
            rw [hsubs]
            exact List.mem_filter.mpr ⟨hcm, by simp [hcp]⟩
          obtain ⟨pre, post, hsplit⟩ := List.append_of_mem hcsubs
          set accc := pre.foldl (fun acc sub => deleteFolderRecursive acc fuel sub.fid) s1
            with haccc
          have hs2eq : s2 = post.foldl (fun acc sub => deleteFolderRecursive acc fuel sub.fid)
              (deleteFolderRecursive accc fuel c.fid) := by
            rw [hs2, hsplit, List.foldl_append, List.foldl_cons]
          have hacccsub : accc.folders.Sublist t.folders :=
            (foldl_delete_sublist fuel (deleteFolderRecursive_sublist fuel) pre s1).1
          have hu_accc : UniqFids accc.folders := hu.sublist hacccsub
          have hr_accc : RankedForest accc rank := fun f hf p hp =>
            hr f (hacccsub.subset hf) p hp
          have hsubs_sub : subs.Sublist t.folders := by
            rw [hsubs]
            exact List.filter_sublist _
          have hsubs_pw : subs.Pairwise (fun a b => a.fid ≠ b.fid) := hu.sublist hsubs_sub
          have hH : ∀ g : FolderDoc, g ∈ t.folders → ReachesUp t g.fid c.fid →
              g ∈ accc.folders := by
            intro g hgt hgreach
            by_contra hgout
            have hg1 : g ∈ s1.folders := hgt
            obtain ⟨accb, e, hepre, hsubb, hgin, hgdel⟩ :=
              foldl_delete_break fuel
                (fun t' r' => (deleteFolderRecursive_sublist fuel t' r').1) pre s1 g hg1 hgout
            have hsubbt : accb.folders.Sublist t.folders := hsubb
            have hu_accb : UniqFids accb.folders := hu.sublist hsubbt
            have hesubs : e ∈ subs := by
              rw [hsplit]
              exact List.mem_append_left _ hepre
            have hest := List.mem_filter.mp hesubs
            have het : e ∈ t.folders := hest.1
            have hep : e.parent = some r := by simpa using hest.2
            have hneq : e.fid ≠ c.fid := by
              rw [hsplit] at hsubs_pw
              have hpw := (List.pairwise_append.mp hsubs_pw).2.2
              exact hpw e hepre c (List.mem_cons_self c post)
            have hge : ReachesUp t g.fid e.fid := by
              rcases deleted_reaches_child fuel accb e.fid g hu_accb hgin hgdel with
                heq2 | ⟨c', hc'm, hc'p, k, hchain2⟩
              · refine ⟨0, ?_⟩
                rw [heq2]
                exact .refl _
              · have hmemt : ∀ f, f ∈ accb.folders → f ∈ t.folders := fun f hf =>
                  hsubbt.subset hf
                have hlift := reachesUpN_lift hmemt hu hchain2
                have hfindc' : findFolder t c'.fid = some c' :=
                  findFolder_of_mem hu (hmemt c' hc'm)
                exact ⟨k + 1, reachesUpN_snoc hlift hfindc' hc'p⟩
            obtain ⟨ke, hke⟩ := hge
            obtain ⟨kc, hkc⟩ := hgreach
            rcases reachesUpN_comparable hke hkc with hec | hce
            · exact no_chain_between_siblings hu hr het hep hcm hcp hneq hec
            · exact no_chain_between_siblings hu hr hcm hcp het hep (Ne.symm hneq) hce
          have hchain_acc : ReachesUpN accc m a c.fid :=
            reachesUpN_transfer_down hu_accc hH hchain'
          have hIH := ih accc c.fid rank hu_accc hr_accc a m hchain_acc (by omega)
          have hpostsub := foldl_delete_sublist fuel (deleteFolderRecursive_sublist fuel)
            post (deleteFolderRecursive accc fuel c.fid)
          constructor
          · intro f hf
            have hf2 : f ∈ s2.folders := (List.mem_filter.mp hf).1
            rw [hs2eq] at hf2
            exact hIH.1 f (hpostsub.1.subset hf2)
          · intro y hy
            have hy2 : y ∈ s2.files := hy
            rw [hs2eq] at hy2
            exact hIH.2 y (hpostsub.2.subset hy2)

/-- Counterexample to **C8** as stated: after permanently deleting `A`,
invoking permanent delete again on the same id is answered with the 404
`notFound` error, not a successful no-op. -/
theorem claim_C8_counterexample :
    (deleteFolder c8Store 2 true 10).1 = .deletedPermanently ∧
    (deleteFolder (deleteFolder c8Store 2 true 10).2 2 true 10).1 = .notFound := by
  decide

/-- Membership after an `updateOne` write comes from an original
document, possibly rewritten. -/
theorem mem_updateOneFolder {l : List FolderDoc} {i : Id} {g : FolderDoc → FolderDoc}
    {f : FolderDoc} (hf : f ∈ updateOneFolder l i g) :
    f ∈ l ∨ ∃ f₀ ∈ l, f = g f₀ := by
  induction l with
  | nil => simp [updateOneFolder] at hf
  | cons x xs ih =>
      by_cases hx : (x.fid == i) = true
      · have hrw : updateOneFolder (x :: xs) i g = g x :: xs := by
          simp [updateOneFolder, hx]
        rw [hrw] at hf
        rcases List.mem_cons.mp hf with rfl | hmem
        · exact Or.inr ⟨x, List.mem_cons_self x xs, rfl⟩
        · exact Or.inl (List.mem_cons_of_mem x hmem)
      · have hrw : updateOneFolder (x :: xs) i g = x :: updateOneFolder xs i g := by
          simp [updateOneFolder, hx]
        rw [hrw] at hf
        rcases List.mem_cons.mp hf with rfl | hmem
        · exact Or.inl (List.mem_cons_self f xs)
        · rcases ih hmem with h | ⟨f₀, hf₀, rfl⟩
          · exact Or.inl (List.mem_cons_of_mem x h)
          · exact Or.inr ⟨f₀, List.mem_cons_of_mem x hf₀, rfl⟩

/-- **C8** (corrected).  Permanent deletion removes the folder and its
whole subtree: in every distinct-fid store whose parent graph is a
forest (witnessed by a rank function), for every id `a` that reaches
the deleted id along its parent chain, after `deleteFolder(id,
permanent)` the id `a` no longer resolves and no file housed in folder
`a` remains.  The original parent's `folderCount` decrement and the
full three-level scenario are verified on `c8Store`.  But a second
permanent delete of an already-deleted id is *not* a successful no-op:
for every store in which the id does not resolve, `deleteFolder`
returns the 404 `notFound` error and leaves the store unchanged. -/
theorem claim_C8_permanent_delete :
    (∀ (s : Store) (id u : Id), findFolder s id = none →
        deleteFolder s id true u = (.notFound, s)) ∧
    (∀ (s : Store) (id u : Id) (folder : FolderDoc) (rank : Id → Nat) (a : Id) (n : Nat),
        UniqFids s.folders → RankedForest s rank →
        findFolder s id = some folder →
        (folder.owner == u || folderHasPermission folder u .manage) = true →
        ReachesUpN s n a id → n ≤ s.folders.length →
        (deleteFolder s id true u).1 = .deletedPermanently ∧
        findFolder (deleteFolder s id true u).2 a = none ∧
        (∀ y ∈ (deleteFolder s id true u).2.files, y.folder ≠ some a)) ∧
    (deleteFolder c8Store 2 true 10).1 = .deletedPermanently ∧
    findFolder (deleteFolder c8Store 2 true 10).2 2 = none ∧
    findFolder (deleteFolder c8Store 2 true 10).2 3 = none ∧
    findFile (deleteFolder c8Store 2 true 10).2 101 = none ∧
    findFile (deleteFolder c8Store 2 true 10).2 102 = none ∧
    (findFolder (deleteFolder c8Store 2 true 10).2 1).map
      (fun f => f.folderCount) = some 0 ∧
    deleteFolder (deleteFolder c8Store 2 true 10).2 2 true 10 =
      (.notFound, (deleteFolder c8Store 2 true 10).2) := by
  refine ⟨?_, ?_, ?_⟩
  · intro s id u h
    simp [deleteFolder, h]
  · intro s id u folder rank a n hu hr hfind hperm hchain hlen
    have hfid : folder.fid = id := findFolder_fid hfind
    have hdel := deleteFolderRecursive_removes_subtree (s.folders.length + 1) s id rank
      hu hr a n hchain (by omega)
    cases hpar : folder.parent with
    | none =>
        have heqd : deleteFolder s id true u =
            (.deletedPermanently,
              deleteFolderRecursive s (s.folders.length + 1) folder.fid) := by
          simp [deleteFolder, hfind, hperm, hpar]
        rw [heqd, hfid]
        refine ⟨rfl, ?_, ?_⟩
        · unfold findFolder
          rw [List.find?_eq_none]
          intro x hx
          simp only [beq_iff_eq]
          exact hdel.1 x hx
        · exact hdel.2
    | some p =>
        have heqd : deleteFolder s id true u =
            (.deletedPermanently,
              incFolderCount (deleteFolderRecursive s (s.folders.length + 1) folder.fid)
                p (-1)) := by
          simp [deleteFolder, hfind, hperm, hpar]
        rw [heqd, hfid]
        refine ⟨rfl, ?_, ?_⟩
        · unfold findFolder incFolderCount
          rw [List.find?_eq_none]
          intro x hx
          simp only [beq_iff_eq]
          rcases mem_updateOneFolder hx with hx0 | ⟨f₀, hf₀, rfl⟩
          · exact hdel.1 x hx0
          · exact hdel.1 f₀ hf₀
        · intro y hy
          exact hdel.2 y hy
  · decide

/-- Witness for C8: the `notFound` conjunct at a concrete missing id,
and the general removal conjunct on the concrete three-level store
(grandchild folder 3 reaches the deleted folder 2 in one step and is
gone afterwards, as are its files). -/
theorem claim_C8_permanent_delete_witness :
    deleteFolder { folders := [], files := [], users := [] } 5 true 1 =
      (.notFound, { folders := [], files := [], users := [] }) ∧
    findFolder (deleteFolder c8Store 2 true 10).2 3 = none ∧
    (∀ y ∈ (deleteFolder c8Store 2 true 10).2.files, y.folder ≠ some 3) := by
  refine ⟨?_, ?_⟩
  · exact claim_C8_permanent_delete.1 { folders := [], files := [], users := [] } 5 1
      (by decide)
  · have hchain : ReachesUpN c8Store 1 3 2 := by
      refine ReachesUpN.step
        { fid := 3, name := "B", parent := some 2, path := "/RA/", owner := 10,
          sharedWith := [], isTrash := false, folderCount := 0 }
        (by decide) rfl ?_
      exact ReachesUpN.refl 2
    have h := claim_C8_permanent_delete.2.1 c8Store 2 10
      { fid := 2, name := "A", parent := some 1, path := "/R", owner := 10,
        sharedWith := [], isTrash := false, folderCount := 1 }
      (fun i => i) 3 1 (by unfold UniqFids; decide)
      (by
        intro f hf p hp
        simp only [c8Store, List.mem_cons, List.not_mem_nil, or_false] at hf
        rcases hf with rfl | rfl | rfl
        · simp at hp
        · cases Option.some.inj hp
          decide
        · cases Option.some.inj hp
          decide)
      (by decide) (by decide) hchain (by decide)
    exact ⟨h.2.1, h.2.2⟩

/-! ## Claim C5 -/

theorem find?_updateOneFile {l : List FileDoc} {i : Id} {f : FileDoc}
    (g : FileDoc → FileDoc)
    (hfind : l.find? (fun x => x.fid == i) = some f) (hg : (g f).fid = i) :
    (updateOneFile l i g).find? (fun x => x.fid == i) = some (g f) := by
  induction l with
  | nil => simp at hfind
  | cons x xs ih =>
      by_cases hx : (x.fid == i) = true
      · have hf : f = x := by
          rw [@List.find?_cons_of_pos _ (fun y => y.fid == i) x xs hx] at hfind
          exact (Option.some.inj hfind).symm
        rw [hf] at hg ⊢
        have hrw : updateOneFile (x :: xs) i g = g x :: xs := by
          simp [updateOneFile, hx]
        rw [hrw, @List.find?_cons_of_pos _ (fun y => y.fid == i) (g x) xs (by simp [hg])]
      · rw [@List.find?_cons_of_neg _ (fun y => y.fid == i) x xs hx] at hfind
        have hrw : updateOneFile (x :: xs) i g = x :: updateOneFile xs i g := by
          simp [updateOneFile, hx]
        rw [hrw, @List.find?_cons_of_neg _ (fun y => y.fid == i) x (updateOneFile xs i g) hx]
        exact ih hfind

theorem fileSaveHook_fid (doc : FileDoc) (m : Bool) :
    (fileSaveHook doc m).fid = doc.fid := by
  unfold fileSaveHook
  split
  · split <;> rfl
  · rfl

theorem fileSaveHook_status (doc : FileDoc) (m : Bool) :
    (fileSaveHook doc m).status = doc.status := by
  unfold fileSaveHook
  split
  · split <;> rfl
  · rfl

/-- After `saveFileDoc`, looking the id up yields the hooked document. -/
theorem findFile_saveFileDoc {s : Store} {i : Id} {f : FileDoc}
    (doc : FileDoc) (m : Bool)
    (hfind : findFile s i = some f) (hdoc : doc.fid = i) :
    findFile (saveFileDoc s doc m) i = some (fileSaveHook doc m) := by
  unfold findFile saveFileDoc
  rw [hdoc]
  exact find?_updateOneFile (fun _ => fileSaveHook doc m) hfind
    (by rw [fileSaveHook_fid]; exact hdoc)

/-- Inversion form of `findFile_saveFileDoc`. -/
theorem findFile_saveFileDoc_inv {s : Store} {i : Id} {f g : FileDoc}
    {doc : FileDoc} {m : Bool}
    (hfind : findFile s i = some f) (hdoc : doc.fid = i)
    (hg : findFile (saveFileDoc s doc m) i = some g) :
    g = fileSaveHook doc m := by
  rw [findFile_saveFileDoc doc m hfind hdoc] at hg
  exact (Option.some.inj hg).symm

/-- Store for the C5 counterexample: file 101 is in status `deleted`. -/
def c5Store : Store :=
  { folders := [],
    files :=
      [{ fid := 101, name := "old.bin", owner := 1, folder := none, size := 9,
         mimeType := "application/octet-stream", status := .deleted,
         storageKey := some "k", storageUrl := some "u", sharedWith := [],
         currentVersion := 1, versions := [], riskAssessment := none,
         downloads := [] }],
    users := [] }

/-- Counterexample to **C5** as stated: quarantine is *not* allowed
only from `active` — a file in status `deleted` is happily relocated
and flipped to `quarantined`. -/
theorem claim_C5_counterexample :
    (quarantineFile c5Store 101 1 (.ok "qk" "qu")).1 = .quarantined ∧
    (findFile (quarantineFile c5Store 101 1 (.ok "qk" "qu")).2 101).map
      (fun f => f.status) = some .quarantined := by
  decide

/-- **C5** (corrected).  `quarantine` is a successful no-op on an
already-quarantined file and is otherwise allowed from *any* status
(not only `active`); `restore` is allowed only from `quarantined`; for
both, the storage relocation happens before the status flips, and when
the relocation collaborator fails the record (and the whole store) is
left unchanged. -/
theorem claim_C5_quarantine_restore (s : Store) (id adminId : Id) (f : FileDoc)
    (key url : String) (hfind : findFile s id = some f) :
    (f.status = .quarantined →
      (∀ st, quarantineFile s id adminId st = (.alreadyQuarantined, s)) ∧
      restoreFile s id adminId .failure = (.storageError, s) ∧
      (restoreFile s id adminId (.ok key url)).1 = .restored ∧
      (∀ g, findFile (restoreFile s id adminId (.ok key url)).2 id = some g →
        g.status = .active)) ∧
    (f.status ≠ .quarantined →
      quarantineFile s id adminId .failure = (.storageError, s) ∧
      (quarantineFile s id adminId (.ok key url)).1 = .quarantined ∧
      (∀ g, findFile (quarantineFile s id adminId (.ok key url)).2 id = some g →
        g.status = .quarantined) ∧
      (∀ st, restoreFile s id adminId st = (.notQuarantined, s))) := by
  have hfid : f.fid = id := findFile_fid hfind
  constructor
  · intro hq
    refine ⟨?_, ?_, ?_, ?_⟩
    · intro st
      cases st <;> simp [quarantineFile, hfind, hq]
    · simp [restoreFile, hfind, hq]
    · simp [restoreFile, hfind, hq]
    · intro g hg
      simp only [restoreFile, hfind] at hg
      rw [hq] at hg
      simp only [beq_self_eq_true, Bool.not_true, Bool.false_eq_true, if_false] at hg
      have hgeq := findFile_saveFileDoc_inv hfind (by exact hfid) hg
      rw [hgeq, fileSaveHook_status]
  · intro hq
    refine ⟨?_, ?_, ?_, ?_⟩
    · simp [quarantineFile, hfind, hq]
    · simp [quarantineFile, hfind, hq]
    · intro g hg
      simp only [quarantineFile, hfind] at hg
      rw [if_neg (by simpa using hq)] at hg
      have hgeq := findFile_saveFileDoc_inv hfind (by exact hfid) hg
      rw [hgeq, fileSaveHook_status]
    · intro st
      cases st <;> simp [restoreFile, hfind, hq]

/-- Witness for C5 on concrete files: a quarantined file is restored to
`active` with a working collaborator, and a failing collaborator leaves
an `active` file's record unchanged. -/
theorem claim_C5_quarantine_restore_witness :
    (quarantineFile c5Store 101 1 .failure = (.storageError, c5Store)) ∧
    (∀ g, findFile (quarantineFile c5Store 101 1 (.ok "qk" "qu")).2 101 = some g →
      g.status = .quarantined) := by
  have h := claim_C5_quarantine_restore c5Store 101 1
    { fid := 101, name := "old.bin", owner := 1, folder := none, size := 9,
      mimeType := "application/octet-stream", status := .deleted,
      storageKey := some "k", storageUrl := some "u", sharedWith := [],
      currentVersion := 1, versions := [], riskAssessment := none,
      downloads := [] } "qk" "qu" (by decide)
  have h2 := h.2 (by decide)
  exact ⟨h2.1, h2.2.2.1⟩

/-! ## Claim C6 -/

/-- Store for C6: one user (id 20) with free quota, no files. -/
def c6Store : Store :=
  { folders := [], files := [],
    users := [{ uid := 20, storageUsed := 0, storageQuota := 1000 }] }

/-- Store for the C6 download guard: file 601 is quarantined and owned
by user 1. -/
def c6QuarantineStore : Store :=
  { folders := [],
    files :=
      [{ fid := 601, name := "bad.bin", owner := 1, folder := none, size := 4,
         mimeType := "application/octet-stream", status := .quarantined,
         storageKey := some "qk", storageUrl := some "qu", sharedWith := [],
         currentVersion := 1, versions := [], riskAssessment := none,
         downloads := [] }],
    users := [{ uid := 1, storageUsed := 4, storageQuota := 1000 }] }

/-- Counterexample to **C6** as stated: when the risk collaborator
*returns* `score=85, level=high, isMalicious=true`, the upload is
rejected with the 403 security block and *no file record exists at
all* — there is no "resulting file record in status quarantined". -/
theorem claim_C6_counterexample :
    uploadFile c6Store 20 "evil.exe" 10 "application/x-dosexec" none 1000
      (.verdict 85 .high true) (.ok "k" "u") 501 = (.blocked, c6Store) ∧
    findFile c6Store 501 = none := by
  decide

/-- **C6** (corrected).  For every upload whose risk assessment
*returns* a malicious or high-risk verdict, the request is rejected
with the 403 security block and the store is unchanged — no file record
is created in any status (so in particular none in `quarantined`); and
`downloadFile` on any id that resolves only to quarantined files never
redirects and leaves the store unchanged. -/
theorem claim_C6_block_and_download_guard :
    (∀ (s : Store) (userId : Id) (name : String) (size : Nat) (mime : String)
        (folderId : Option Id) (maxFileSize : Nat) (score : Nat)
        (level : RiskLevel) (malicious : Bool) (storage : StorageOutcome)
        (newId : Id),
        size ≤ maxFileSize →
        (malicious = true ∨ level = .high) →
        uploadFile s userId name size mime folderId maxFileSize
          (.verdict score level malicious) storage newId = (.blocked, s)) ∧
    (∀ (s : Store) (id u : Id),
        (∀ f ∈ s.files, f.fid = id → f.status = .quarantined) →
        (downloadFile s id u).1 ≠ .redirect ∧ (downloadFile s id u).2 = s) := by
  constructor
  · intro s userId name size mime folderId maxFileSize score level malicious
      storage newId hsize hver
    have hns : ¬(size > maxFileSize) := by omega
    rcases hver with hm | hl
    · subst hm
      simp [uploadFile, hns]
    · subst hl
      cases malicious <;> simp [uploadFile, hns]
  · intro s id u hq
    cases hfind : s.files.find? (fun f => f.fid == id &&
        (f.owner == u || f.sharedWith.any (fun share =>
          share.user == u &&
            (share.permission == .view || share.permission == .edit)))) with
    | none =>
        constructor
        · simp [downloadFile, hfind]
        · simp [downloadFile, hfind]
    | some file =>
        have hpred := List.find?_some hfind
        have hmem := List.mem_of_find?_eq_some hfind
        have hfid : file.fid = id := by
          simp only [Bool.and_eq_true, beq_iff_eq] at hpred
          exact hpred.1
        have hstat := hq file hmem hfid
        constructor
        · simp [downloadFile, hfind, hstat]
        · simp [downloadFile, hfind, hstat]

/-- Witness for C6: the blocked upload at the concrete input and the
download guard on the concrete quarantined store. -/
theorem claim_C6_block_and_download_guard_witness :
    uploadFile c6Store 20 "evil.exe" 12 "application/x-dosexec" none 1000
      (.verdict 91 .high true) .failure 502 = (.blocked, c6Store) ∧
    (downloadFile c6QuarantineStore 601 1).1 ≠ .redirect :=
  ⟨claim_C6_block_and_download_guard.1 c6Store 20 "evil.exe" 12
      "application/x-dosexec" none 1000 91 .high true .failure 502
      (by decide) (Or.inl rfl),
   (claim_C6_block_and_download_guard.2 c6QuarantineStore 601 1 (by decide)).1⟩

/-! ## Claim C7 -/

/-- Store for C7: one user (id 20) with free quota. -/
def c7Store : Store :=
  { folders := [], files := [],
    users := [{ uid := 20, storageUsed := 0, storageQuota := 1000 }] }

/-- **C7** (code bug).  When the risk collaborator throws, the
synthesised verdict is indeed the most conservative one (score 100,
level high, malicious, flagged for review) and the record is created in
`quarantined` — but as soon as the storage upload succeeds,
`uploadFile` unconditionally sets the status to `active` and saves, so
the file *is* admitted as an ordinary active (downloadable) file,
distinguishable from a clean upload only by its stored verdict. -/
theorem claim_C7_conservative_verdict_admitted_active :
    (uploadFile c7Store 20 "blob.bin" 10 "application/octet-stream" none 1000
      .failure (.ok "key1" "url1") 701).1 = .uploaded ∧
    (findFile (uploadFile c7Store 20 "blob.bin" 10 "application/octet-stream"
        none 1000 .failure (.ok "key1" "url1") 701).2 701).map
      (fun f => f.riskAssessment) =
      some (some { riskScore := 100, riskLevel := .high, isMalicious := true,
                   requiresReview := true }) ∧
    (findFile (uploadFile c7Store 20 "blob.bin" 10 "application/octet-stream"
        none 1000 .failure (.ok "key1" "url1") 701).2 701).map
      (fun f => f.status) = some .active ∧
    (downloadFile (uploadFile c7Store 20 "blob.bin" 10 "application/octet-stream"
        none 1000 .failure (.ok "key1" "url1") 701).2 701 20).1 = .redirect := by
  decide

/-! ## Claim C4 -/

/-- Store for C4: file 301 is active at storage key `orig-key` with an
empty version history. -/
def c4Store : Store :=
  { folders := [],
    files :=
      [{ fid := 301, name := "doc.txt", owner := 1, folder := none, size := 100,
         mimeType := "text/plain", status := .active,
         storageKey := some "orig-key", storageUrl := some "orig-url",
         sharedWith := [], currentVersion := 1, versions := [],
         riskAssessment := none, downloads := [] }],
    users := [] }

/-- **C4** (code bug).  Replacing the storage locator of file 301 (the
quarantine relocation is the in-repository flow that does exactly this)
appends one version entry and bumps `currentVersion` by 1 — but the
entry records the *new* key `"quarantine/orig-key"`, not the previous
`"orig-key"`: the `pre('save')` hook runs after the controller has
already overwritten `storage.key`, so the previous locator is lost from
the history, contradicting the hook's own comment ("Add current version
to versions array before updating"). -/
theorem claim_C4_history_entry_records_new_key :
    (quarantineFile c4Store 301 1 (.ok "quarantine/orig-key" "q-url")).1 =
      .quarantined ∧
    (findFile (quarantineFile c4Store 301 1
        (.ok "quarantine/orig-key" "q-url")).2 301).map (fun f => f.versions) =
      some [{ version := 1, storageKey := "quarantine/orig-key", size := 100,
              mimeType := "text/plain", uploadedBy := 1 }] ∧
    (findFile (quarantineFile c4Store 301 1
        (.ok "quarantine/orig-key" "q-url")).2 301).map
      (fun f => f.currentVersion) = some 2 ∧
    ("quarantine/orig-key" : String) ≠ "orig-key" := by
  decide

/-! ## Claim C9 -/

theorem findIdx?_ge {α : Type} (p : α → Bool) :
    ∀ (l : List α) (k i : Nat), List.findIdx? p l k = some i → k ≤ i := by
  intro l
  induction l with
  | nil => intro k i h; simp [List.findIdx?] at h
  | cons x xs ih =>
      intro k i h
      rw [List.findIdx?_cons] at h
      by_cases hx : p x = true
      · rw [if_pos hx] at h
        cases h
        exact Nat.le_refl k
      · rw [if_neg hx] at h
        exact Nat.le_of_succ_le (ih (k + 1) i h)

theorem find?_set_of_findIdx?_aux {α : Type} (p : α → Bool) (g : α)
    (hg : p g = true) :
    ∀ (l : List α) (i k : Nat), List.findIdx? p l k = some (k + i) →
      (l.set i g).find? p = some g := by
  intro l
  induction l with
  | nil => intro i k h; simp [List.findIdx?] at h
  | cons x xs ih =>
      intro i k h
      rw [List.findIdx?_cons] at h
      by_cases hx : p x = true
      · rw [if_pos hx] at h
        have hi : i = 0 := by
          have := Option.some.inj h
          omega
        subst hi
        rw [List.set]
        exact List.find?_cons_of_pos xs hg
      · rw [if_neg hx] at h
        have hge := findIdx?_ge p xs (k + 1) (k + i) h
        have hi : ∃ j, i = j + 1 := ⟨i - 1, by omega⟩
        obtain ⟨j, rfl⟩ := hi
        have h' : List.findIdx? p xs (k + 1) = some ((k + 1) + j) := by
          rw [h]; congr 1; omega
        rw [List.set]
        rw [List.find?_cons_of_neg _ hx]
        exact ih j (k + 1) h'

theorem find?_set_upsert {α : Type} (p : α → Bool) (g : α) (hg : p g = true)
    (l : List α) (i : Nat) (h : l.findIdx? p = some i) :
    (l.set i g).find? p = some g := by
  refine find?_set_of_findIdx?_aux p g hg l i 0 ?_
  simpa using h

theorem find?_append_upsert {α : Type} (p : α → Bool) (g : α) (hg : p g = true)
    (l : List α) (h : l.findIdx? p = none) :
    (l ++ [g]).find? p = some g := by
  have hnone : l.find? p = none := by
    rw [List.find?_eq_none]
    intro x hx
    have := List.findIdx?_eq_none_iff.mp h x hx
    simp [this]
  rw [List.find?_append, hnone]
  simp [hg]

theorem find?_modify_of_findIdx?_aux {α : Type} (p : α → Bool) (f : α → α)
    (hf : ∀ x, p x = true → p (f x) = true) :
    ∀ (l : List α) (i k : Nat), List.findIdx? p l k = some (k + i) →
      ∃ x, p x = true ∧ (l.modify f i).find? p = some (f x) := by
  intro l
  induction l with
  | nil => intro i k h; simp [List.findIdx?] at h
  | cons x xs ih =>
      intro i k h
      rw [List.findIdx?_cons] at h
      by_cases hx : p x = true
      · rw [if_pos hx] at h
        have hi : i = 0 := by
          have := Option.some.inj h
          omega
        subst hi
        refine ⟨x, hx, ?_⟩
        have hrw : (x :: xs).modify f 0 = f x :: xs := by simp [List.modify]
        rw [hrw]
        exact List.find?_cons_of_pos xs (hf x hx)
      · rw [if_neg hx] at h
        have hge := findIdx?_ge p xs (k + 1) (k + i) h
        have hi : ∃ j, i = j + 1 := ⟨i - 1, by omega⟩
        obtain ⟨j, rfl⟩ := hi
        have h' : List.findIdx? p xs (k + 1) = some ((k + 1) + j) := by
          rw [h]; congr 1; omega
        obtain ⟨y, hy, hres⟩ := ih j (k + 1) h'
        refine ⟨y, hy, ?_⟩
        have hrw : (x :: xs).modify f (j + 1) = x :: xs.modify f j := by
          simp [List.modify]
        rw [hrw, List.find?_cons_of_neg _ hx]
        exact hres

theorem find?_modify_upsert {α : Type} (p : α → Bool) (f : α → α)
    (hf : ∀ x, p x = true → p (f x) = true)
    (l : List α) (i : Nat) (h : l.findIdx? p = some i) :
    ∃ x, p x = true ∧ (l.modify f i).find? p = some (f x) := by
  refine find?_modify_of_findIdx?_aux p f hf l i 0 ?_
  simpa using h

theorem find?_updateOneFolder {l : List FolderDoc} {i : Id} {f : FolderDoc}
    (g : FolderDoc → FolderDoc)
    (hfind : l.find? (fun x => x.fid == i) = some f) (hg : (g f).fid = i) :
    (updateOneFolder l i g).find? (fun x => x.fid == i) = some (g f) := by
  induction l with
  | nil => simp at hfind
  | cons x xs ih =>
      by_cases hx : (x.fid == i) = true
      · have hf : f = x := by
          rw [@List.find?_cons_of_pos _ (fun y => y.fid == i) x xs hx] at hfind
          exact (Option.some.inj hfind).symm
        rw [hf] at hg ⊢
        have hrw : updateOneFolder (x :: xs) i g = g x :: xs := by
          simp [updateOneFolder, hx]
        rw [hrw, @List.find?_cons_of_pos _ (fun y => y.fid == i) (g x) xs (by simp [hg])]
      · rw [@List.find?_cons_of_neg _ (fun y => y.fid == i) x xs hx] at hfind
        have hrw : updateOneFolder (x :: xs) i g = x :: updateOneFolder xs i g := by
          simp [updateOneFolder, hx]
        rw [hrw, @List.find?_cons_of_neg _ (fun y => y.fid == i) x (updateOneFolder xs i g) hx]
        exact ih hfind

/-- After `saveFolderDoc`, looking the id up yields the saved document. -/
theorem findFolder_saveFolderDoc {s : Store} {i : Id} {f : FolderDoc}
    (doc : FolderDoc)
    (hfind : findFolder s i = some f) (hdoc : doc.fid = i) :
    findFolder { s with folders := saveFolderDoc s.folders doc } i = some doc := by
  unfold findFolder saveFolderDoc
  rw [hdoc]
  exact find?_updateOneFolder (fun _ => doc) hfind hdoc

/-- Inversion form of `findFolder_saveFolderDoc`. -/
theorem findFolder_saveFolderDoc_inv {s : Store} {i : Id} {f g doc : FolderDoc}
    (hfind : findFolder s i = some f) (hdoc : doc.fid = i)
    (hg : findFolder { s with folders := saveFolderDoc s.folders doc } i = some g) :
    g = doc := by
  rw [findFolder_saveFolderDoc doc hfind hdoc] at hg
  exact (Option.some.inj hg).symm

/-- Looking up the id after replacing the first matching file document
yields the replacement. -/
theorem findFile_replace_inv {s : Store} {i key : Id} {f g doc : FileDoc}
    (hfind : findFile s i = some f) (hkey : key = i) (hdoc : doc.fid = i)
    (hg : findFile { s with files := updateOneFile s.files key (fun _ => doc) } i = some g) :
    g = doc := by
  have hres : findFile { s with files := updateOneFile s.files key (fun _ => doc) } i =
      some doc := by
    unfold findFile
    rw [hkey]
    exact find?_updateOneFile (fun _ => doc) hfind hdoc
  rw [hres] at hg
  exact (Option.some.inj hg).symm

/-- Every `Permission` value passes the folder controller's
`Object.values(FILE_PERMISSIONS).includes(permission)` validation. -/
theorem permissionLevels_contains (p : Permission) :
    permissionLevels.contains p = true := by
  cases p <;> rfl

/-- A file found by id whose owner matches is also found by the
owner-restricted query `File.findOne({_id, owner})`. -/
theorem find?_owner_query {l : List FileDoc} {i sharer : Id} {file : FileDoc}
    (hfind : l.find? (fun f => f.fid == i) = some file)
    (howner : file.owner = sharer) :
    l.find? (fun f => f.fid == i && f.owner == sharer) = some file := by
  induction l with
  | nil => simp at hfind
  | cons x xs ih =>
      by_cases hx : (x.fid == i) = true
      · rw [@List.find?_cons_of_pos _ (fun y => y.fid == i) x xs hx] at hfind
        have hf := Option.some.inj hfind
        subst hf
        refine List.find?_cons_of_pos xs ?_
        simp [hx, howner]
      · rw [@List.find?_cons_of_neg _ (fun y => y.fid == i) x xs hx] at hfind
        refine Eq.trans (List.find?_cons_of_neg xs ?_) (ih hfind)
        simp [hx]

/-- Store for the C9 counterexample: file 401 is owned by user 1 and
user 2 holds a `manage` grant on it; user 3 exists as a grantee. -/
def c9Store : Store :=
  { folders := [],
    files :=
      [{ fid := 401, name := "f.txt", owner := 1, folder := none, size := 1,
         mimeType := "text/plain", status := .active, storageKey := some "k",
         storageUrl := some "u",
         sharedWith := [{ user := 2, permission := .manage, sharedBy := 1 }],
         currentVersion := 1, versions := [], riskAssessment := none,
         downloads := [] }],
    users :=
      [{ uid := 1, storageUsed := 0, storageQuota := 100 },
       { uid := 2, storageUsed := 0, storageQuota := 100 },
       { uid := 3, storageUsed := 0, storageQuota := 100 }] }

/-- Counterexample to **C9** as stated: user 2 holds `manage` on file
401 (and so passes the resource permission check the claim appeals to),
yet `shareFile` answers 404 — only the owner may share a file; and even
the owner cannot grant the valid level `manage`, which is rejected as
an invalid permission. -/
theorem claim_C9_counterexample :
    (findFile c9Store 401).map (fun f => fileHasPermission f 2 .manage) =
      some true ∧
    shareFile c9Store 401 2 3 .view = (.notFound, c9Store) ∧
    shareFile c9Store 401 1 3 .manage = (.invalidPermission, c9Store) := by
  decide

/-- **C9** (corrected).  `shareFolder` behaves as claimed: it requires
the sharer to be the owner or hold `manage`, rejects self-sharing,
upserts the grantee's entry, and accepts every permission level
(`perm` is universally quantified below).  `shareFile` instead (i)
requires the sharer to *be the owner* — a non-owner, even one holding a
`manage` grant, is answered 404 — and (ii) accepts only `view`/`edit`,
rejecting `manage` as an invalid permission; within that regime it
rejects self-sharing and upserts the grantee's entry. -/
theorem claim_C9_share_upsert :
    (∀ (s : Store) (id sharer grantee : Id) (perm : Permission)
        (folder : FolderDoc),
        findFolder s id = some folder →
        (folder.owner == sharer || folderHasPermission folder sharer .manage) = true →
        grantee ≠ sharer →
        (findUser s grantee).isSome = true →
        (shareFolder s id sharer grantee perm).1 = .shared ∧
        (∀ folder',
          findFolder (shareFolder s id sharer grantee perm).2 id = some folder' →
          folder'.sharedWith.find? (fun share => share.user == grantee) =
            some { user := grantee, permission := perm, sharedBy := sharer })) ∧
    (∀ (s : Store) (id sharer grantee : Id) (perm : Permission) (file : FileDoc),
        (perm = .view ∨ perm = .edit) →
        sharer ≠ grantee →
        findFile s id = some file →
        file.owner = sharer →
        (findUser s grantee).isSome = true →
        (shareFile s id sharer grantee perm).1 = .shared ∧
        (∀ file',
          findFile (shareFile s id sharer grantee perm).2 id = some file' →
          ∃ e, file'.sharedWith.find? (fun share => share.user == grantee) = some e ∧
            e.user = grantee ∧ e.permission = perm)) ∧
    (∀ (s : Store) (id sharer grantee : Id),
        shareFile s id sharer grantee .manage = (.invalidPermission, s)) ∧
    (∀ (s : Store) (id sharer grantee : Id) (perm : Permission),
        (perm = .view ∨ perm = .edit) →
        sharer ≠ grantee →
        (∀ f ∈ s.files, f.fid = id → f.owner ≠ sharer) →
        shareFile s id sharer grantee perm = (.notFound, s)) := by
  refine ⟨?_, ?_, ?_, ?_⟩
  · intro s id sharer grantee perm folder hfind hperm hself huser
    have hcontains := permissionLevels_contains perm
    have hmem : perm ∈ permissionLevels := by cases perm <;> simp [permissionLevels]
    have hselfb : (grantee == sharer) = false := by simp [hself]
    have huserb : (findUser s grantee).isNone = false := by
      cases h : findUser s grantee
      · rw [h] at huser; simp at huser
      · rfl
    have hfid : folder.fid = id := findFolder_fid hfind
    cases hidx : folder.sharedWith.findIdx? (fun share => share.user == grantee) with
    | some i =>
        constructor
        · simp [shareFolder, hfind, hcontains, hmem, hperm, hselfb, huserb, hidx]
        · intro folder' hg
          simp only [shareFolder, hcontains, hmem, Bool.not_true, Bool.false_eq_true,
            if_false, hfind, hperm, hselfb, huserb, hidx] at hg
          have hval := findFolder_saveFolderDoc_inv hfind (by exact hfid) hg
          rw [hval]
          exact find?_set_upsert _ _ (by simp) folder.sharedWith i hidx
    | none =>
        constructor
        · simp [shareFolder, hfind, hcontains, hmem, hperm, hselfb, huserb, hidx]
        · intro folder' hg
          simp only [shareFolder, hcontains, hmem, Bool.not_true, Bool.false_eq_true,
            if_false, hfind, hperm, hselfb, huserb, hidx] at hg
          have hval := findFolder_saveFolderDoc_inv hfind (by exact hfid) hg
          rw [hval]
          exact find?_append_upsert _ _ (by simp) folder.sharedWith hidx
  · intro s id sharer grantee perm file hpv hns hfile howner huser
    have hq := find?_owner_query hfile howner
    have hpermb : (perm == Permission.view || perm == Permission.edit) = true := by
      rcases hpv with rfl | rfl <;> rfl
    have hnsb : (sharer == grantee) = false := by simp [hns]
    have huserb : (findUser s grantee).isNone = false := by
      cases h : findUser s grantee
      · rw [h] at huser; simp at huser
      · rfl
    have hfid : file.fid = id := findFile_fid hfile
    cases hidx : file.sharedWith.findIdx? (fun share => share.user == grantee) with
    | some i =>
        constructor
        · simp [shareFile, hpermb, hnsb, hq, huserb, hidx]
        · intro file' hg
          simp only [shareFile, hpermb, Bool.not_true, Bool.false_eq_true, if_false,
            hnsb, hq, huserb, hidx] at hg
          have hval := findFile_replace_inv hfile hfid (by exact hfid) hg
          rw [hval]
          obtain ⟨x, hx, hres⟩ := find?_modify_upsert
            (fun share => share.user == grantee)
            (fun share => { share with permission := perm })
            (fun x h => h) file.sharedWith i hidx
          refine ⟨{ x with permission := perm }, hres, ?_, rfl⟩
          simpa using hx
    | none =>
        constructor
        · simp [shareFile, hpermb, hnsb, hq, huserb, hidx]
        · intro file' hg
          simp only [shareFile, hpermb, Bool.not_true, Bool.false_eq_true, if_false,
            hnsb, hq, huserb, hidx] at hg
          have hval := findFile_replace_inv hfile hfid (by exact hfid) hg
          rw [hval]
          refine ⟨{ user := grantee, permission := perm, sharedBy := sharer }, ?_, rfl, rfl⟩
          exact find?_append_upsert _ _ (by simp) file.sharedWith hidx
  · intro s id sharer grantee
    rfl
  · intro s id sharer grantee perm hpv hns hnotowner
    have hpermb : (perm == Permission.view || perm == Permission.edit) = true := by
      rcases hpv with rfl | rfl <;> rfl
    have hnsb : (sharer == grantee) = false := by simp [hns]
    have hqnone : s.files.find? (fun f => f.fid == id && f.owner == sharer) = none := by
      rw [List.find?_eq_none]
      intro x hx
      simp only [Bool.and_eq_true, beq_iff_eq, not_and]
      intro h1 h2
      exact hnotowner x hx h1 h2
    simp [shareFile, hpermb, hnsb, hqnone]

/-- Folder store for the C9 witness: folder 11 owned by user 1; user 2
exists as a grantee. -/
def c9FolderStore : Store :=
  { folders :=
      [{ fid := 11, name := "shared", parent := none, path := "/", owner := 1,
         sharedWith := [], isTrash := false, folderCount := 0 }],
    files := [],
    users :=
      [{ uid := 1, storageUsed := 0, storageQuota := 100 },
       { uid := 2, storageUsed := 0, storageQuota := 100 }] }

/-- Witness for C9: the folder share accepts a `manage` grant from the
owner, the file share by the owner at level `view` succeeds, and a
manage-level file share is rejected. -/
theorem claim_C9_share_upsert_witness :
    (shareFolder c9FolderStore 11 1 2 .manage).1 = .shared ∧
    (shareFile c9Store 401 1 3 .view).1 = .shared ∧
    shareFile c9Store 401 1 3 .manage = (.invalidPermission, c9Store) := by
  refine ⟨?_, ?_, ?_⟩
  · exact ((claim_C9_share_upsert.1 c9FolderStore 11 1 2 .manage
      { fid := 11, name := "shared", parent := none, path := "/", owner := 1,
        sharedWith := [], isTrash := false, folderCount := 0 }
      (by decide) (by decide) (by decide) (by decide)).1)
  · exact ((claim_C9_share_upsert.2.1 c9Store 401 1 3 .view
      { fid := 401, name := "f.txt", owner := 1, folder := none, size := 1,
        mimeType := "text/plain", status := .active, storageKey := some "k",
        storageUrl := some "u",
        sharedWith := [{ user := 2, permission := .manage, sharedBy := 1 }],
        currentVersion := 1, versions := [], riskAssessment := none,
        downloads := [] }
      (Or.inl rfl) (by decide) (by decide) (by decide) (by decide)).1)
  · exact claim_C9_share_upsert.2.2.1 c9Store 401 1 3

end CipherGate
